import Mathlib

/-!
Shallow embedding of taskmgr.py (repository SamiAbar30/taskmgr), a
line-oriented command interpreter managing an in-memory task list.

Modelling conventions:
- Python strings are Lean Strings over their character content; the
  ASCII behaviour of str.lower / str.isdigit / the regex classes \w and
  \s is modelled exactly, wider Unicode classes are approximated by the
  corresponding Lean character predicates.
- Python ints are Lean Int (ids, being allocated from a counter starting
  at 0, are Nat).
- raise / exception control flow is modelled with Except / Option.
- The global mutable store (_tasks, _next_id) is an explicit State value
  threaded through the handlers; in the source every handler performs all
  of its raises before its single mutation point, so handlers are
  translated as functions returning either an error or the new state.
-/

namespace Taskmgr

/-- Model of the Python whitespace class, as used by str.strip and the
regex class \s. -/
def isPySpace (c : Char) : Bool := c.isWhitespace

/-- Model of the regex word class \w over ASCII: letters, digits and the
underscore. -/
def isWordChar (c : Char) : Bool := c.isAlphanum || c == '_'

/-- Python str.strip(): remove leading and trailing whitespace. -/
def pyStrip (s : String) : String :=
  String.mk (((s.data.dropWhile isPySpace).reverse.dropWhile isPySpace).reverse)

/-- Python str.lower() over ASCII content: lowercase every character. -/
def pyLower (s : String) : String := String.mk (s.data.map Char.toLower)

/-- Python str.startswith on the single hash character: the first
character is the hash. -/
def startsWithHash (s : String) : Bool :=
  match s.data with
  | c :: _ => c == '#'
  | [] => false

/-- Python single-character str.split: split at every occurrence of the
separator, keeping empty parts (so the result always has one more part
than there are separators). -/
def splitOnChar (sep : Char) : List Char → List (List Char)
  | [] => [[]]
  | c :: t =>
    if c == sep then [] :: splitOnChar sep t
    else
      match splitOnChar sep t with
      | h :: r => (c :: h) :: r
      | [] => [[c]]

/-- Python string less-than: lexicographic comparison by code point, a
proper prefix sorting first. -/
def strLtChars : List Char → List Char → Bool
  | [], [] => false
  | [], _ :: _ => true
  | _ :: _, [] => false
  | a :: as, b :: bs =>
    if a < b then true
    else if b < a then false
    else strLtChars as bs

/-- Python string less-than on Strings. -/
def strLt (x y : String) : Bool := strLtChars x.data y.data

/-- Python s.rstrip over the single character newline: remove every
trailing newline character. -/
def rstripNewlines (s : String) : String :=
  String.mk ((s.data.reverse.dropWhile (fun c => c == '\n')).reverse)

/-- Python str.isdigit() on ASCII content: non-empty and composed only of
decimal digits (so it is False on the empty string). -/
def pyIsdigit (s : String) : Bool := !s.data.isEmpty && s.data.all Char.isDigit

/-- Digit accumulator for pyInt: decimal digits, allowing a single
underscore between two digits (the CPython int literal grammar). -/
def pyIntDigits : Nat → List Char → Option Nat
  | acc, [] => some acc
  | acc, c :: cs =>
    if c.isDigit then pyIntDigits (acc * 10 + (c.toNat - 48)) cs
    else if c == '_' then
      match cs with
      | d :: cs2 =>
        if d.isDigit then pyIntDigits (acc * 10 + (d.toNat - 48)) cs2 else none
      | [] => none
    else none

/-- Python int(str) on a character list: optional surrounding
whitespace, an optional sign, then decimal digits with single
underscores permitted between digits.  Returns none where the Python
call raises ValueError. -/
def pyIntChars (inp : List Char) : Option Int :=
  let cs := ((inp.dropWhile isPySpace).reverse.dropWhile isPySpace).reverse
  match cs with
  | '+' :: rest =>
    match rest with
    | c :: cs2 =>
      if c.isDigit then (pyIntDigits (c.toNat - 48) cs2).map (fun n => (n : Int))
      else none
    | [] => none
  | '-' :: rest =>
    match rest with
    | c :: cs2 =>
      if c.isDigit then (pyIntDigits (c.toNat - 48) cs2).map (fun n => -(n : Int))
      else none
    | [] => none
  | c :: cs2 =>
    if c.isDigit then (pyIntDigits (c.toNat - 48) cs2).map (fun n => (n : Int))
    else none
  | [] => none

/-- Python int(str). -/
def pyInt (s : String) : Option Int := pyIntChars s.data

/-- parse_bool_str: exactly the four literals are accepted; anything else
raises InvalidDoneStatus (modelled as none). -/
def parseBoolStr (s : String) : Option Bool :=
  if s == "True" || s == "true" then some true
  else if s == "False" || s == "false" then some false
  else none

/-- Python str(bool). -/
def pyStrBool (b : Bool) : String := if b then "True" else "False"

/-- Gregorian leap year rule, as in the Python datetime module. -/
def isLeapYear (y : Nat) : Bool := y % 4 == 0 && (y % 100 != 0 || y % 400 == 0)

/-- Length of a month in the proleptic Gregorian calendar. -/
def daysInMonth (y m : Nat) : Nat :=
  if m == 2 then (if isLeapYear y then 29 else 28)
  else if m == 4 || m == 6 || m == 9 || m == 11 then 30
  else 31

/-- Days in year y that precede month m. -/
def daysBeforeMonth (y m : Nat) : Nat :=
  let base : Nat :=
    match m with
    | 1 => 0 | 2 => 31 | 3 => 59 | 4 => 90 | 5 => 120 | 6 => 151
    | 7 => 181 | 8 => 212 | 9 => 243 | 10 => 273 | 11 => 304 | 12 => 334
    | _ => 0
  if 2 < m && isLeapYear y then base + 1 else base

/-- Python date.toordinal(): day number in the proleptic Gregorian
calendar, with 1-1-0001 mapped to 1. -/
def toordinal (y m d : Nat) : Nat :=
  (365 * (y - 1) + (y - 1) / 4 - (y - 1) / 100 + (y - 1) / 400)
    + daysBeforeMonth y m + d

/-- The range check performed by the Python date constructor. -/
def isValidDate (y m d : Nat) : Bool :=
  1 ≤ y && y ≤ 9999 && 1 ≤ m && m ≤ 12 && 1 ≤ d && d ≤ daysInMonth y m

/-- Numeric value of an all-digit character run. -/
def digitsToNat (cs : List Char) : Nat := cs.foldl (fun a c => a * 10 + (c.toNat - 48)) 0

/-- An all-digit run whose length lies between lo and hi. -/
def isDigitRun (cs : List Char) (lo hi : Nat) : Bool :=
  cs.all Char.isDigit && decide (lo ≤ cs.length) && decide (cs.length ≤ hi)

/-- parse_date_str: "NONE" maps to none; otherwise the string must fully
match (\d{1,2})-(\d{1,2})-(\d{4}) - equivalently, splitting on the hyphen
must yield exactly three all-digit groups of lengths 1-2, 1-2 and 4 - and
name a valid date, in which case the result is some (year, month, day);
every other input raises InvalidDateFormat, modelled as Except.error. -/
def parseDateStr (s : String) : Except Unit (Option (Nat × Nat × Nat)) :=
  if s == "NONE" then .ok none
  else
    match splitOnChar '-' s.data with
    | [ds, ms, ys] =>
      if isDigitRun ds 1 2 && isDigitRun ms 1 2 && isDigitRun ys 4 4 then
        let d := digitsToNat ds
        let m := digitsToNat ms
        let y := digitsToNat ys
        if isValidDate y m d then .ok (some (y, m, d)) else .error ()
      else .error ()
    | _ => .error ()

/-- The error taxonomy of taskmgr: one constructor per Python exception
class derived from TaskMgrError. -/
inductive Err
  | tooManyArguments
  | invalidArgument
  | invalidArgumentType
  | missingArguments
  | invalidDateFormat
  | invalidRepeat
  | invalidPriority
  | taskNotFound
  | invalidDoneStatus
  | unknownCommand
  | tooLongLine
deriving DecidableEq, Repr

instance {ε α : Type} [DecidableEq ε] [DecidableEq α] : DecidableEq (Except ε α) :=
  fun a b =>
    match a, b with
    | .ok x, .ok y =>
      match decEq x y with
      | .isTrue h => .isTrue (by rw [h])
      | .isFalse h => .isFalse (by intro hc; injection hc with h2; exact h h2)
    | .error x, .error y =>
      match decEq x y with
      | .isTrue h => .isTrue (by rw [h])
      | .isFalse h => .isFalse (by intro hc; injection hc with h2; exact h h2)
    | .ok _, .error _ => .isFalse (by intro hc; exact Except.noConfusion hc)
    | .error _, .ok _ => .isFalse (by intro hc; exact Except.noConfusion hc)

/-- The Python class name of each error, as printed in diagnostics. -/
def errName : Err → String
  | .tooManyArguments => "TooManyArguments"
  | .invalidArgument => "InvalidArgument"
  | .invalidArgumentType => "InvalidArgumentType"
  | .missingArguments => "MissingArguments"
  | .invalidDateFormat => "InvalidDateFormat"
  | .invalidRepeat => "InvalidRepeat"
  | .invalidPriority => "InvalidPriority"
  | .taskNotFound => "TaskNotFound"
  | .invalidDoneStatus => "InvalidDoneStatus"
  | .unknownCommand => "UnknownCommand"
  | .tooLongLine => "TooLongLine"

/-- One task record: the dict created by cmd_add, with its fixed schema. -/
structure Task where
  name : String
  type : String
  desc : String
  due : String
  rep : String
  prio : String
  done : Bool
  ctime : String
  id : Nat
deriving DecidableEq, Repr

/-- The allowed property names. -/
def PROPERTIES : List String :=
  ["name", "type", "desc", "due", "rep", "prio", "done", "ctime", "id"]

def VALID_REPS : List String := ["NONE", "DAILY", "WEEKLY", "MONTHLY"]

def VALID_PRIOS : List String := ["LOW", "MEDIUM", "HIGH"]

def VALID_DIRECTION : List String := ["asc", "desc"]

def DEFAULT_PRIORITY : String := "MEDIUM"

def DEFAULT_REP : String := "NONE"

def DEFAULT_DUE : String := "NONE"

/-- str(task.get(prop, "")): the stringified value of a property, as used
by list filtering and batch delete (a bool prints as True or False, the
id in decimal, an unknown property name yields the default ""). -/
def stringifyProp (t : Task) : String → String
  | "name" => t.name
  | "type" => t.type
  | "desc" => t.desc
  | "due" => t.due
  | "rep" => t.rep
  | "prio" => t.prio
  | "done" => pyStrBool t.done
  | "ctime" => t.ctime
  | "id" => toString t.id
  | _ => ""

/-- The process-wide mutable state of taskmgr: the ordered task store
_tasks and the id counter _next_id.  The field created is a history
variable that is not part of the Python state: it records, in order, the
ids handed out by successful add commands (the value the source writes to
task["id"]); it influences no behaviour and exists only so that theorems
can speak about the sequence of assigned ids. -/
structure State where
  tasks : List Task
  nextId : Nat
  created : List Nat
deriving DecidableEq, Repr

/-- The initial (and cleared) state: empty store, counter at 0. -/
def initState : State := ⟨[], 0, []⟩

/-! ## Tokenizer

The argument tokenizer scans a segment with re.finditer over the pattern
ARG_PAIR_RE, which is: a group of word characters, optional whitespace, an
equals sign, optional whitespace, then one of three value alternatives -
a double-quoted run, a single-quoted run, or a run of non-whitespace
characters.  For this particular pattern, regex backtracking can never
turn a local failure into a success: a shortened word run is followed by
another word character (never by an equals sign), a shortened whitespace
run is followed by whitespace, and the final alternative has nothing
after it; so the greedy, deterministic left-to-right reading implemented
below is exact. -/

/-- The single-quote character (written by code to keep quotes out of the
source text). -/
def squote : Char := Char.ofNat 39

/-- The third value alternative of ARG_PAIR_RE: a non-empty run of
non-whitespace characters. -/
def unquotedAlt (key : String) (r4 : List Char) : Option (String × String × List Char) :=
  let v := r4.takeWhile (fun c => !isPySpace c)
  if v.isEmpty then none
  else some (key, String.mk v, r4.dropWhile (fun c => !isPySpace c))

/-- Match the value part of ARG_PAIR_RE (everything after the equals
sign and its optional whitespace): a quoted alternative if the closing
quote exists, else the unquoted alternative. -/
def matchValueAt (key : String) (r3 : List Char) : Option (String × String × List Char) :=
  let r4 := r3.dropWhile isPySpace
  match r4 with
  | c :: r5 =>
    if c == '"' then
      match r5.dropWhile (fun x => x != '"') with
      | _ :: r7 => some (key, String.mk (r5.takeWhile (fun x => x != '"')), r7)
      | [] => unquotedAlt key r4
    else if c == squote then
      match r5.dropWhile (fun x => x != squote) with
      | _ :: r7 => some (key, String.mk (r5.takeWhile (fun x => x != squote)), r7)
      | [] => unquotedAlt key r4
    else unquotedAlt key r4
  | [] => none

/-- Try to match ARG_PAIR_RE at the start of cs.  On success, returns the
key, the (unquoted) value, and the characters following the match. -/
def matchPairAt (cs : List Char) : Option (String × String × List Char) :=
  let key := cs.takeWhile isWordChar
  if key.isEmpty then none
  else
    match (cs.dropWhile isWordChar).dropWhile isPySpace with
    | '=' :: r3 => matchValueAt (String.mk key) r3
    | _ => none

theorem length_dropWhile_le (p : Char → Bool) (l : List Char) :
    (l.dropWhile p).length ≤ l.length := by
  induction l with
  | nil => simp
  | cons c t ih =>
    by_cases h : p c
    · simpa [List.dropWhile, h] using Nat.le_succ_of_le ih
    · simp [List.dropWhile, h]

theorem unquotedAlt_length {key : String} {r4 : List Char} {k v : String}
    {rest : List Char} (h : unquotedAlt key r4 = some (k, v, rest)) :
    rest.length ≤ r4.length := by
  simp only [unquotedAlt] at h
  split at h
  · exact absurd h (by simp)
  · simp only [Option.some.injEq, Prod.mk.injEq] at h
    rcases h with ⟨-, -, h⟩
    subst h
    exact length_dropWhile_le _ _

theorem matchValueAt_length {key : String} {r3 : List Char} {k v : String}
    {rest : List Char} (h : matchValueAt key r3 = some (k, v, rest)) :
    rest.length ≤ r3.length := by
  have hr4 : (r3.dropWhile isPySpace).length ≤ r3.length := length_dropWhile_le _ _
  simp only [matchValueAt] at h
  split at h
  case _ c r5 heq =>
    have hr5 : r5.length + 1 ≤ r3.length := by
      rw [heq] at hr4
      simpa using hr4
    split at h
    · split at h
      case _ x r7 hdrop =>
        simp only [Option.some.injEq, Prod.mk.injEq] at h
        rcases h with ⟨-, -, h⟩
        subst h
        have h1 : (r5.dropWhile (fun x => x != '"')).length ≤ r5.length :=
          length_dropWhile_le _ _
        rw [hdrop] at h1
        simp at h1
        omega
      case _ hdrop =>
        have h1 := unquotedAlt_length h
        rw [heq] at h1
        simp at h1
        omega
    · split at h
      · split at h
        case _ x r7 hdrop =>
          simp only [Option.some.injEq, Prod.mk.injEq] at h
          rcases h with ⟨-, -, h⟩
          subst h
          have h1 : (r5.dropWhile (fun x => x != squote)).length ≤ r5.length :=
            length_dropWhile_le _ _
          rw [hdrop] at h1
          simp at h1
          omega
        case _ hdrop =>
          have h1 := unquotedAlt_length h
          rw [heq] at h1
          simp at h1
          omega
      · have h1 := unquotedAlt_length h
        rw [heq] at h1
        simp at h1
        omega
  case _ heq =>
    exact absurd h (by simp)

theorem matchPairAt_length {cs : List Char} {k v : String} {rest : List Char}
    (h : matchPairAt cs = some (k, v, rest)) : rest.length < cs.length := by
  simp only [matchPairAt] at h
  split at h
  · exact absurd h (by simp)
  case _ hkey =>
    split at h
    case _ r3 heq =>
      have h3 : r3.length + 1 ≤ cs.length := by
        have h1 : (cs.dropWhile isWordChar).length < cs.length := by
          cases cs with
          | nil => simp at hkey
          | cons c t =>
            by_cases hw : isWordChar c
            · have := length_dropWhile_le isWordChar t
              simp only [List.dropWhile, hw]
              simpa using Nat.lt_succ_of_le this
            · simp [List.takeWhile, hw] at hkey
        have h2 : ((cs.dropWhile isWordChar).dropWhile isPySpace).length ≤
            (cs.dropWhile isWordChar).length := length_dropWhile_le _ _
        rw [heq] at h2
        simp at h2
        omega
      have := matchValueAt_length h
      omega
    case _ heq =>
      exact absurd h (by simp)

/-- re.finditer advancing: find the leftmost position at which
ARG_PAIR_RE matches, returning that match. -/
def findNextMatch : List Char → Option (String × String × List Char)
  | [] => none
  | c :: t =>
    match matchPairAt (c :: t) with
    | some r => some r
    | none => findNextMatch t

theorem findNextMatch_length {cs : List Char} {k v : String} {rest : List Char}
    (h : findNextMatch cs = some (k, v, rest)) : rest.length < cs.length := by
  induction cs with
  | nil => exact absurd h (by simp [findNextMatch])
  | cons c t ih =>
    unfold findNextMatch at h
    split at h
    case _ r heq =>
      cases h
      exact matchPairAt_length heq
    case _ heq =>
      exact Nat.lt_succ_of_lt (ih h)

/-- The finditer loop of tokenize_args_segment, written with explicit
fuel so that it is structurally recursive (each match consumes at least
one character, so fuel equal to the length of the input, as supplied by
tokenizeRaw, always suffices; tokenizeRawF_irrel proves the fuel
irrelevant beyond that).  Returns the list of key=value pairs in match
order, together with the characters that follow the final match (the
text checked by the trailing-garbage test; characters skipped between or
before matches are silently ignored, exactly as in the source, where pos
is only advanced on a match). -/
def tokenizeRawF : Nat → List Char → List (String × String) × List Char
  | 0, cs => ([], cs)
  | fuel + 1, cs =>
    match findNextMatch cs with
    | none => ([], cs)
    | some (k, v, rest) =>
      let r := tokenizeRawF fuel rest
      ((k, v) :: r.1, r.2)

/-- The finditer loop of tokenize_args_segment. -/
def tokenizeRaw (cs : List Char) : List (String × String) × List Char :=
  tokenizeRawF cs.length cs

theorem tokenizeRawF_irrel :
    ∀ (fuel1 fuel2 : Nat) (cs : List Char), cs.length ≤ fuel1 → cs.length ≤ fuel2 →
      tokenizeRawF fuel1 cs = tokenizeRawF fuel2 cs := by
  intro fuel1
  induction fuel1 with
  | zero =>
    intro fuel2 cs h1 h2
    have hcs : cs = [] := List.length_eq_zero.mp (Nat.le_zero.mp h1)
    subst hcs
    cases fuel2 with
    | zero => rfl
    | succ n => simp [tokenizeRawF, findNextMatch]
  | succ n1 ih =>
    intro fuel2 cs h1 h2
    cases fuel2 with
    | zero =>
      have hcs : cs = [] := List.length_eq_zero.mp (Nat.le_zero.mp h2)
      subst hcs
      simp [tokenizeRawF, findNextMatch]
    | succ n2 =>
      show tokenizeRawF (n1 + 1) cs = tokenizeRawF (n2 + 1) cs
      unfold tokenizeRawF
      cases hm : findNextMatch cs with
      | none => rfl
      | some r =>
        obtain ⟨k, v, rest⟩ := r
        have hlt := findNextMatch_length hm
        have e := ih n2 rest (by omega) (by omega)
        simp [e]

/-- One Python dict assignment args[key] = val: if the key is present its
value is replaced in place, otherwise the pair is appended. -/
def dictInsert (d : List (String × String)) (kv : String × String) :
    List (String × String) :=
  if d.any (fun p => p.1 == kv.1) then
    d.map (fun p => if p.1 == kv.1 then (p.1, kv.2) else p)
  else d ++ [kv]

/-- The dict built by successive assignments over the match list. -/
def buildDict (ps : List (String × String)) : List (String × String) :=
  ps.foldl dictInsert []

/-- A parsed argument mapping (a Python dict of string keys and values,
in insertion order, keys unique). -/
abbrev Args := List (String × String)

/-- Dict lookup. -/
def argsGet (args : Args) (k : String) : Option String :=
  (args.find? (fun p => p.1 == k)).map (fun p => p.2)

/-- tokenize_args_segment: collect the key=value matches into a dict and
fail with InvalidArgument when non-whitespace text follows the last
match. -/
def tokenizeArgsSegment (segment : String) : Except Err Args :=
  let r := tokenizeRaw segment.data
  if pyStrip (String.mk r.2) == "" then .ok (buildDict r.1)
  else .error .invalidArgument

/-! ## Sorting and printing

sort_key_func builds, per sort field, a key that Python compares with
the less-than of the key type; sorted() is a stable sort on those keys,
and reverse=True runs the same stable sort with every comparison
reversed.  A stable sort by a total preorder has a unique result, which
List.insertionSort computes when orderedInsert places each element a
before the first element b that a is not obliged to follow - that is,
with the relation (fun a b => not (key b < key a)) ascending and
(fun a b => not (key a < key b)) descending. -/

/-- PRIORITY_ORDER.get(prio, 0). -/
def prioOrder : String → Nat
  | "LOW" => 0
  | "MEDIUM" => 1
  | "HIGH" => 2
  | _ => 0

/-- The due sort key: (0, ordinal) for a parsable date, (1, sentinel) for
the literal NONE and for unparsable strings.  The source uses (1, None);
since the second component of a sentinel key is only ever compared
against another sentinel second component (where both are equal), the
constant 0 models None exactly. -/
def dueKey (t : Task) : Nat × Nat :=
  match parseDateStr t.due with
  | .ok (some (y, m, d)) => (0, toordinal y m d)
  | _ => (1, 0)

/-- The ctime sort key.  The source splits the stored string as
day-month-year hour:minute:second (extra split components are ignored,
as indexing takes the first three), builds a datetime, and keys on its
timestamp; any failure (missing fields, non-integers, out-of-range
values) is caught and keyed as 0.  timestamp() is modelled as seconds
since 1970-01-01 00:00:00 with a fixed zero UTC offset and no DST; any
fixed offset yields the same ordering, which is all sorting observes. -/
def parseCtimeKey (s : String) : Int :=
  let parts := splitOnChar ' ' s.data
  match parts.get? 0, parts.get? 1 with
  | some dpart, some tpart =>
    let dparts := splitOnChar '-' dpart
    let tparts := splitOnChar ':' tpart
    match dparts.get? 0, dparts.get? 1, dparts.get? 2,
        tparts.get? 0, tparts.get? 1, tparts.get? 2 with
    | some dayS, some monS, some yearS, some hS, some miS, some secS =>
      match pyIntChars dayS, pyIntChars monS, pyIntChars yearS,
          pyIntChars hS, pyIntChars miS, pyIntChars secS with
      | some d, some mo, some y, some h, some mi, some sec =>
        if 1 ≤ y ∧ y ≤ 9999 ∧ 1 ≤ mo ∧ mo ≤ 12 ∧
            1 ≤ d ∧ d ≤ (daysInMonth y.toNat mo.toNat : Int) ∧
            0 ≤ h ∧ h ≤ 23 ∧ 0 ≤ mi ∧ mi ≤ 59 ∧ 0 ≤ sec ∧ sec ≤ 59 then
          ((toordinal y.toNat mo.toNat d.toNat : Int) - 719163) * 86400
            + h * 3600 + mi * 60 + sec
        else 0
      | _, _, _, _, _, _ => 0
    | _, _, _, _, _, _ => 0
  | _, _ => 0

/-- Strict less-than between two sort key values of a linearly ordered
key type (the comparison Python evaluates between the values returned by
sort_key_func). -/
def ltKey {κ : Type} [LinearOrder κ] (x y : κ) : Bool := decide (x < y)

/-- Equality of two sort key values. -/
def eqKey {κ : Type} [DecidableEq κ] (x y : κ) : Bool := decide (x = y)

/-- Strict comparison of the sort keys of two tasks for a given sort
field, written as the same chain of field tests as sort_key_func.  Pairs
are compared lexicographically (Python tuple order), the Bool order has
False below True.  The catch-all branch models task.get(sort_by, ""),
which is the constant key "" once sort_by is none of the nine schema
fields, so no two tasks compare strictly there. -/
def taskLt (f : String) (a b : Task) : Bool :=
  if f == "name" then strLt (pyLower a.name) (pyLower b.name)
  else if f == "type" then strLt (pyLower a.type) (pyLower b.type)
  else if f == "desc" then strLt (pyLower a.desc) (pyLower b.desc)
  else if f == "due" then ltKey (toLex (dueKey a)) (toLex (dueKey b))
  else if f == "rep" then strLt a.rep b.rep
  else if f == "prio" then ltKey (prioOrder a.prio) (prioOrder b.prio)
  else if f == "done" then ltKey a.done b.done
  else if f == "ctime" then ltKey (parseCtimeKey a.ctime) (parseCtimeKey b.ctime)
  else if f == "id" then ltKey a.id b.id
  else false

/-- Equality of the sort keys of two tasks for a given sort field (a tie
under taskLt). -/
def taskKeyEq (f : String) (a b : Task) : Bool :=
  if f == "name" then eqKey (pyLower a.name) (pyLower b.name)
  else if f == "type" then eqKey (pyLower a.type) (pyLower b.type)
  else if f == "desc" then eqKey (pyLower a.desc) (pyLower b.desc)
  else if f == "due" then eqKey (toLex (dueKey a)) (toLex (dueKey b))
  else if f == "rep" then eqKey a.rep b.rep
  else if f == "prio" then eqKey (prioOrder a.prio) (prioOrder b.prio)
  else if f == "done" then eqKey a.done b.done
  else if f == "ctime" then eqKey (parseCtimeKey a.ctime) (parseCtimeKey b.ctime)
  else if f == "id" then eqKey a.id b.id
  else true

/-- Ascending insertion relation: a may stay before b exactly when the
key of b is not strictly below the key of a. -/
def ascRel (f : String) (a b : Task) : Prop := taskLt f b a = false

/-- Descending insertion relation: a may stay before b exactly when the
key of a is not strictly below the key of b. -/
def descRel (f : String) (a b : Task) : Prop := taskLt f a b = false

instance (f : String) : DecidableRel (ascRel f) :=
  fun a b => inferInstanceAs (Decidable (_ = false))

instance (f : String) : DecidableRel (descRel f) :=
  fun a b => inferInstanceAs (Decidable (_ = false))

/-- sorted(tasks, key=sort_key_func(sort_by), reverse=(direction=="desc")). -/
def sortTasksForPrint (ts : List Task) (sortBy direction : String) : List Task :=
  if direction == "desc" then List.insertionSort (descRel sortBy) ts
  else List.insertionSort (ascRel sortBy) ts

/-- The fixed header row. -/
def headerLine : String := "Name | Type | Desc | Due | Rep | Prio | Done | Ctime | Id"

/-- One printed task row (the f-string of the source; the due display
equals the stored due string in both branches of the source). -/
def taskRow (t : Task) : String :=
  t.name ++ " | " ++ t.type ++ " | " ++ t.desc ++ " | " ++ t.due ++ " | "
    ++ t.rep ++ " | " ++ t.prio ++ " | " ++ pyStrBool t.done ++ " | "
    ++ t.ctime ++ " | " ++ toString t.id

/-- print_header_and_tasks: the header, then per task its row followed by
a blank line, in sorted order. -/
def printHeaderAndTasks (ts : List Task) (sortBy direction : String) : List String :=
  headerLine :: ((sortTasksForPrint ts sortBy direction).map (fun t => [taskRow t, ""])).flatten

/-! ## Command handlers

Each handler returns either the typed error the source raises or the
printed lines together with the new state.  In the source every handler
raises strictly before its single mutation point, so this translation is
exact; the checks appear in source order. -/

/-- validate_sort_args. -/
def validateSortArgs (args : Args) : Except Err (String × String) :=
  let sortBy := (argsGet args "sort_by").getD "name"
  let direction := (argsGet args "direction").getD "asc"
  if !VALID_DIRECTION.contains direction then .error .invalidArgument
  else if !PROPERTIES.contains sortBy then .error .invalidArgument
  else .ok (sortBy, direction)

/-- The usage text printed by cmd_help. -/
def helpLines : List String :=
  ["help",
   "print [sort_by=<prop>] [direction=<asc|desc>]",
   "add name=<name> [type=<type>] [desc=<desc>] [due=<DD-MM-YYYY>] [rep=<NONE|DAILY|WEEKLY|MONTHLY>] [prio=<LOW|MEDIUM|HIGH>]",
   "list property=<prop> val=<value> [sort_by=<prop>] [direction=<asc|desc>]",
   "mod id=<id> property=<prop> new_val=<value>",
   "done id=<id>",
   "delete id=<id> | delete property=<prop> val=<value>"]

/-- cmd_help (its no-arguments check lives in process_line). -/
def cmdHelp (orig : String) (st : State) : Except Err (List String × State) :=
  .ok (("Command success: " ++ orig) :: helpLines, st)

/-- cmd_print. -/
def cmdPrint (args : Args) (orig : String) (st : State) :
    Except Err (List String × State) :=
  if !args.all (fun p => ["sort_by", "direction"].contains p.1) then
    .error .tooManyArguments
  else
    match validateSortArgs args with
    | .error e => .error e
    | .ok (sortBy, direction) =>
      .ok (("Command success: " ++ orig) :: printHeaderAndTasks st.tasks sortBy direction, st)

/-- Does parse_date_str raise on this string? -/
def isDateErr (s : String) : Bool :=
  match parseDateStr s with
  | .error _ => true
  | .ok _ => false

/-- cmd_add. -/
def cmdAdd (args : Args) (orig now : String) (st : State) :
    Except Err (List String × State) :=
  if !args.all (fun p => ["name", "type", "desc", "due", "rep", "prio"].contains p.1) then
    .error .tooManyArguments
  else
    match argsGet args "name" with
    | none => .error .missingArguments
    | some name =>
      if pyIsdigit name then .error .invalidArgumentType
      else
        let typ := (argsGet args "type").getD "NONE"
        let desc := (argsGet args "desc").getD ""
        let dueStr := (argsGet args "due").getD DEFAULT_DUE
        let rep := (argsGet args "rep").getD DEFAULT_REP
        let prio := (argsGet args "prio").getD DEFAULT_PRIORITY
        if !VALID_REPS.contains rep then .error .invalidRepeat
        else if !VALID_PRIOS.contains prio then .error .invalidPriority
        else if dueStr != "NONE" && isDateErr dueStr then .error .invalidDateFormat
        else
          .ok (["Command success: " ++ orig],
            { st with
              tasks := st.tasks ++ [⟨name, typ, desc, dueStr, rep, prio, false, now, st.nextId⟩],
              nextId := st.nextId + 1,
              created := st.created ++ [st.nextId] })

/-- cmd_list. -/
def cmdList (args : Args) (orig : String) (st : State) :
    Except Err (List String × State) :=
  if !args.all (fun p => ["property", "val", "sort_by", "direction"].contains p.1) then
    .error .tooManyArguments
  else
    match argsGet args "property", argsGet args "val" with
    | some prop, some val =>
      if !PROPERTIES.contains prop then .error .invalidArgument
      else
        match validateSortArgs args with
        | .error e => .error e
        | .ok (sortBy, direction) =>
          let filtered := st.tasks.filter
            (fun t => pyLower (stringifyProp t prop) == pyLower val)
          .ok (("Command success: " ++ orig) :: printHeaderAndTasks filtered sortBy direction, st)
    | _, _ => .error .missingArguments

/-- In-place update of the first task satisfying p, as mutating the dict
found by next() does. -/
def updateFirst (p : Task → Bool) (f : Task → Task) : List Task → List Task
  | [] => []
  | t :: ts => if p t then f t :: ts else t :: updateFirst p f ts

/-- task[prop] = new_val for the free-string properties of the final
branch of cmd_mod (name, type, desc; the catch-all is unreachable there
since prop was validated against PROPERTIES). -/
def setStrProp (prop v : String) (t : Task) : Task :=
  match prop with
  | "name" => { t with name := v }
  | "type" => { t with type := v }
  | "desc" => { t with desc := v }
  | _ => t

/-- cmd_mod. -/
def cmdMod (args : Args) (orig : String) (st : State) :
    Except Err (List String × State) :=
  if !args.all (fun p => ["id", "property", "new_val"].contains p.1) then
    .error .tooManyArguments
  else
    match argsGet args "id", argsGet args "property", argsGet args "new_val" with
    | some idS, some prop, some newVal =>
      match pyInt idS with
      | none => .error .invalidArgumentType
      | some idv =>
        if !PROPERTIES.contains prop then .error .invalidArgument
        else
          match st.tasks.find? (fun t => (t.id : Int) == idv) with
          | none => .error .taskNotFound
          | some _ =>
            let upd := fun (f : Task → Task) =>
              { st with tasks := updateFirst (fun t => (t.id : Int) == idv) f st.tasks }
            if prop == "due" then
              if isDateErr newVal then .error .invalidDateFormat
              else .ok (["Command success: " ++ orig], upd (fun t => { t with due := newVal }))
            else if prop == "rep" then
              if !VALID_REPS.contains newVal then .error .invalidRepeat
              else .ok (["Command success: " ++ orig], upd (fun t => { t with rep := newVal }))
            else if prop == "prio" then
              if !VALID_PRIOS.contains newVal then .error .invalidPriority
              else .ok (["Command success: " ++ orig], upd (fun t => { t with prio := newVal }))
            else if prop == "done" then
              match parseBoolStr newVal with
              | none => .error .invalidDoneStatus
              | some b => .ok (["Command success: " ++ orig], upd (fun t => { t with done := b }))
            else if prop == "id" then .error .invalidArgument
            else if prop == "ctime" then .error .invalidArgument
            else
              if prop == "name" && pyIsdigit newVal then .error .invalidArgumentType
              else .ok (["Command success: " ++ orig], upd (setStrProp prop newVal))
    | _, _, _ => .error .missingArguments

/-- cmd_done. -/
def cmdDone (args : Args) (orig : String) (st : State) :
    Except Err (List String × State) :=
  if !args.all (fun p => ["id"].contains p.1) then .error .tooManyArguments
  else
    match argsGet args "id" with
    | none => .error .missingArguments
    | some idS =>
      match pyInt idS with
      | none => .error .invalidArgumentType
      | some idv =>
        match st.tasks.find? (fun t => (t.id : Int) == idv) with
        | none => .error .taskNotFound
        | some _ =>
          let newTasks :=
            updateFirst (fun t => (t.id : Int) == idv) (fun t => { t with done := true }) st.tasks
          .ok (["Command success: " ++ orig], { st with tasks := newTasks })

/-- The first index whose element satisfies p, as computed by
next((i for i, t in enumerate(_tasks) if ...), None). -/
def findFirstIdx (p : Task → Bool) : List Task → Option Nat
  | [] => none
  | t :: ts => if p t then some 0 else (findFirstIdx p ts).map (fun i => i + 1)

/-- cmd_delete. -/
def cmdDelete (args : Args) (orig : String) (st : State) :
    Except Err (List String × State) :=
  if !args.all (fun p => ["id", "property", "val"].contains p.1) then
    .error .tooManyArguments
  else if (argsGet args "id").isSome then
    if (argsGet args "property").isSome || (argsGet args "val").isSome then
      .error .tooManyArguments
    else
      match pyInt ((argsGet args "id").getD "") with
      | none => .error .invalidArgumentType
      | some idv =>
        match findFirstIdx (fun t => (t.id : Int) == idv) st.tasks with
        | none => .error .taskNotFound
        | some i =>
          .ok (["Command success: " ++ orig], { st with tasks := st.tasks.eraseIdx i })
  else
    match argsGet args "property", argsGet args "val" with
    | some prop, some val =>
      if !PROPERTIES.contains prop then .error .invalidArgument
      else
        let toDelete := st.tasks.filter
          (fun t => pyLower (stringifyProp t prop) == pyLower val)
        if toDelete.isEmpty then .error .taskNotFound
        else
          .ok (["Command success: " ++ orig],
            { st with tasks := st.tasks.filter (fun t => !(decide (t ∈ toDelete))) })
    | _, _ => .error .missingArguments

/-! ## Dispatch -/

/-- re.match of the leading command word: optional whitespace then a
non-empty run of word characters; the rest of the line is stripped
before tokenization. -/
def extractCmd (l : String) : Option (String × String) :=
  let cs := l.data.dropWhile isPySpace
  let w := cs.takeWhile isWordChar
  if w.isEmpty then none
  else some (String.mk w, pyStrip (String.mk (cs.dropWhile isWordChar)))

/-- The dispatch chain of process_line (the no-arguments check of help is
performed here, as in the source; an unknown command word raises
InvalidArgument). -/
def dispatchCommand (cmd : String) (args : Args) (orig now : String) (st : State) :
    Except Err (List String × State) :=
  if cmd == "help" then
    if !args.isEmpty then .error .tooManyArguments else cmdHelp orig st
  else if cmd == "print" then cmdPrint args orig st
  else if cmd == "add" then cmdAdd args orig now st
  else if cmd == "list" then cmdList args orig st
  else if cmd == "mod" then cmdMod args orig st
  else if cmd == "done" then cmdDone args orig st
  else if cmd == "delete" then cmdDelete args orig st
  else .error .invalidArgument

/-- The part of line processing that follows the blank-line and length
checks: comment skipping, command extraction, tokenization, dispatch,
and rendering of any raised error as the one-line diagnostic (whether the
error propagates out of process_line to the run_from_file catch, as the
tokenizer errors and a failed command match do, or is caught inside
process_line, the printed text is identical). -/
def afterLengthCheck (now l : String) (st : State) : List String × State :=
  if startsWithHash (pyStrip l) then ([], st)
  else
    match extractCmd l with
    | none => (["Error InvalidArgument: " ++ l], st)
    | some (cmd, rest) =>
      match (if rest != "" then tokenizeArgsSegment rest else .ok []) with
      | .error e => (["Error " ++ errName e ++ ": " ++ l], st)
      | .ok args =>
        match dispatchCommand cmd args l now st with
        | .ok r => r
        | .error e => (["Error " ++ errName e ++ ": " ++ l], st)

/-- Processing of one raw input line: the trailing newline is stripped,
an all-whitespace line is silently ignored, a line longer than 1024
characters fails with TooLongLine, and otherwise the line is handled by
afterLengthCheck.  The now argument supplies the creation-time string an
add would record (now_ctime_str reads the wall clock, which the embedding
makes an explicit input).  Returns the printed lines and the new state. -/
def processLine (now line : String) (st : State) : List String × State :=
  let l := rstripNewlines line
  if pyStrip l == "" then ([], st)
  else if 1024 < l.length then (["Error TooLongLine: " ++ l], st)
  else afterLengthCheck now l st

/-- Execution of a sequence of input lines, each paired with the clock
string its add (if any) would record. -/
def runLines (cmds : List (String × String)) (st : State) : State :=
  cmds.foldl (fun s c => (processLine c.1 c.2 s).2) st

/-! ## Order properties of the sort keys

Each sort field keys into a linearly ordered type, so the strict
comparison taskLt is, per field, asymmetric, negatively transitive, and
connected up to key equality.  These four generic facts about a decide
of a linear-order less-than drive everything. -/

theorem ltKey_irrefl {κ : Type} [LinearOrder κ] (x : κ) : ltKey x x = false := by
  simp [ltKey]

theorem ltKey_asymm {κ : Type} [LinearOrder κ] {x y : κ}
    (h : ltKey x y = true) : ltKey y x = false := by
  simp only [ltKey, decide_eq_true_eq] at h
  simpa [ltKey] using lt_asymm h

theorem ltKey_negtrans {κ : Type} [LinearOrder κ] (y : κ) {x z : κ}
    (h : ltKey x z = true) : ltKey x y = true ∨ ltKey y z = true := by
  simp only [ltKey, decide_eq_true_eq] at *
  rcases lt_or_le x y with h1 | h1
  · exact Or.inl h1
  · exact Or.inr (lt_of_le_of_lt h1 h)

theorem ltKey_connex {κ : Type} [LinearOrder κ] [DecidableEq κ] {x y : κ}
    (h1 : ltKey x y = false) (h2 : ltKey y x = false) : eqKey x y = true := by
  simp only [ltKey, decide_eq_false_iff_not] at h1 h2
  simp [eqKey, le_antisymm (le_of_not_lt h2) (le_of_not_lt h1)]

theorem ltKey_of_eqKey {κ : Type} [LinearOrder κ] [DecidableEq κ] {x y : κ}
    (h : eqKey x y = true) : ltKey x y = false := by
  simp only [eqKey, decide_eq_true_eq] at h
  subst h
  simp [ltKey]

theorem eqKey_symm {κ : Type} [DecidableEq κ] {x y : κ}
    (h : eqKey x y = true) : eqKey y x = true := by
  simp only [eqKey, decide_eq_true_eq] at h ⊢
  exact h.symm

theorem eqKey_trans {κ : Type} [DecidableEq κ] {x y z : κ}
    (h1 : eqKey x y = true) (h2 : eqKey y z = true) : eqKey x z = true := by
  simp only [eqKey, decide_eq_true_eq] at h1 h2 ⊢
  exact h1.trans h2

theorem strLtChars_irrefl : ∀ cs : List Char, strLtChars cs cs = false := by
  intro cs
  induction cs with
  | nil => rfl
  | cons a t ih => simp [strLtChars, ih]

theorem strLtChars_asymm : ∀ {x y : List Char},
    strLtChars x y = true → strLtChars y x = false := by
  intro x
  induction x with
  | nil =>
    intro y h
    cases y with
    | nil => exact absurd h (by simp [strLtChars])
    | cons b bs => simp [strLtChars]
  | cons a as ih =>
    intro y h
    cases y with
    | nil => exact absurd h (by simp [strLtChars])
    | cons b bs =>
      simp only [strLtChars] at h ⊢
      by_cases hab : a < b
      · simp only [hab, if_true] at h
        simp [lt_asymm hab, hab]
      · by_cases hba : b < a
        · simp [hab, hba] at h
        · simp only [hab, hba, if_false] at h
          simp [hab, hba, ih h]

theorem strLtChars_negtrans : ∀ (y : List Char) {x z : List Char},
    strLtChars x z = true → strLtChars x y = true ∨ strLtChars y z = true := by
  intro y
  induction y with
  | nil =>
    intro x z h
    cases x with
    | nil => exact Or.inr h
    | cons a as =>
      cases z with
      | nil => exact absurd h (by simp [strLtChars])
      | cons d ds => exact Or.inr (by simp [strLtChars])
  | cons c ys ih =>
    intro x z h
    cases x with
    | nil => exact Or.inl (by simp [strLtChars])
    | cons a as =>
      cases z with
      | nil => exact absurd h (by simp [strLtChars])
      | cons d ds =>
        simp only [strLtChars] at h ⊢
        by_cases hac : a < c
        · simp [hac]
        · by_cases hcd : c < d
          · simp [hcd, lt_asymm hcd]
          · by_cases had : a < d
            · have h1 : c ≤ a := le_of_not_lt hac
              have h2 : d ≤ c := le_of_not_lt hcd
              exact absurd (lt_of_lt_of_le had (h2.trans h1)) (lt_irrefl a)
            · by_cases hda : d < a
              · simp [had, hda] at h
              · simp only [had, hda, if_false] at h
                have hac2 : ¬ c < a := by
                  intro hc
                  have h1 : d ≤ c := le_of_not_lt hcd
                  have h2 : a ≤ d := le_of_not_lt hda
                  exact absurd (lt_of_le_of_lt (h2.trans h1) hc) (lt_irrefl a)
                have hdc2 : ¬ d < c := by
                  intro hc
                  have h1 : c ≤ a := le_of_not_lt hac
                  have h2 : a ≤ d := le_of_not_lt hda
                  exact absurd (lt_of_le_of_lt (h1.trans h2) hc) (lt_irrefl c)
                rcases ih h with h1 | h1
                · exact Or.inl (by simp [hac, hac2, h1])
                · exact Or.inr (by simp [hcd, hdc2, h1])

theorem strLtChars_connex : ∀ {x y : List Char},
    strLtChars x y = false → strLtChars y x = false → x = y := by
  intro x
  induction x with
  | nil =>
    intro y h1 _
    cases y with
    | nil => rfl
    | cons b bs => exact absurd h1 (by simp [strLtChars])
  | cons a as ih =>
    intro y h1 h2
    cases y with
    | nil => exact absurd h2 (by simp [strLtChars])
    | cons b bs =>
      simp only [strLtChars] at h1 h2
      by_cases hab : a < b
      · simp [hab] at h1
      · by_cases hba : b < a
        · simp [hab, hba] at h2
        · simp only [hab, hba, if_false] at h1 h2
          have hchar : a = b := le_antisymm (le_of_not_lt hba) (le_of_not_lt hab)
          rw [hchar, ih h1 h2]

theorem strLt_irrefl (x : String) : strLt x x = false := strLtChars_irrefl _

theorem strLt_asymm {x y : String} (h : strLt x y = true) : strLt y x = false :=
  strLtChars_asymm h

theorem strLt_negtrans (y : String) {x z : String} (h : strLt x z = true) :
    strLt x y = true ∨ strLt y z = true :=
  strLtChars_negtrans y.data h

theorem strLt_connex {x y : String} (h1 : strLt x y = false)
    (h2 : strLt y x = false) : eqKey x y = true := by
  have hd : x.data = y.data := strLtChars_connex h1 h2
  have hxy : x = y := congrArg String.mk hd
  simp [eqKey, hxy]

theorem strLt_of_eqKey {x y : String} (h : eqKey x y = true) :
    strLt x y = false := by
  simp only [eqKey, decide_eq_true_eq] at h
  subst h
  exact strLt_irrefl x

theorem taskLt_irrefl (f : String) (a : Task) : taskLt f a a = false := by
  unfold taskLt
  split_ifs <;> first | exact ltKey_irrefl _ | exact strLt_irrefl _ | rfl

set_option maxHeartbeats 1600000 in
theorem taskLt_asymm {f : String} {a b : Task} (h : taskLt f a b = true) :
    taskLt f b a = false := by
  unfold taskLt at h ⊢
  split_ifs at h ⊢ <;>
    first | exact ltKey_asymm h | exact strLt_asymm h | exact absurd h (by simp)

set_option maxHeartbeats 1600000 in
theorem taskLt_negtrans {f : String} (b : Task) {a c : Task}
    (h : taskLt f a c = true) : taskLt f a b = true ∨ taskLt f b c = true := by
  unfold taskLt at *
  split_ifs at * <;>
    first | exact ltKey_negtrans _ h | exact strLt_negtrans _ h | exact absurd h (by simp)

set_option maxHeartbeats 1600000 in
theorem taskKeyEq_of_not_lt {f : String} {a b : Task}
    (h1 : taskLt f a b = false) (h2 : taskLt f b a = false) :
    taskKeyEq f a b = true := by
  unfold taskLt at h1 h2
  unfold taskKeyEq
  split_ifs at * <;> first | exact ltKey_connex h1 h2 | exact strLt_connex h1 h2 | rfl

set_option maxHeartbeats 1600000 in
theorem taskLt_false_of_keyEq {f : String} {a b : Task}
    (h : taskKeyEq f a b = true) : taskLt f a b = false := by
  unfold taskKeyEq at h
  unfold taskLt
  split_ifs at * <;> first | exact ltKey_of_eqKey h | exact strLt_of_eqKey h | rfl

set_option maxHeartbeats 1600000 in
theorem taskKeyEq_symm {f : String} {a b : Task}
    (h : taskKeyEq f a b = true) : taskKeyEq f b a = true := by
  unfold taskKeyEq at h ⊢
  split_ifs at * <;> first | exact eqKey_symm h | rfl

set_option maxHeartbeats 1600000 in
theorem taskKeyEq_trans {f : String} {a b c : Task}
    (h1 : taskKeyEq f a b = true) (h2 : taskKeyEq f b c = true) :
    taskKeyEq f a c = true := by
  unfold taskKeyEq at h1 h2 ⊢
  split_ifs at * <;> first | exact eqKey_trans h1 h2 | rfl

theorem taskLt_of_not_keyEq {f : String} {a b : Task}
    (hne : taskKeyEq f a b = false) (hlt : taskLt f a b = false) :
    taskLt f b a = true := by
  by_cases h : taskLt f b a = true
  · exact h
  · have h2 : taskLt f b a = false := by
      cases hx : taskLt f b a
      · rfl
      · exact absurd hx h
    rw [taskKeyEq_of_not_lt hlt h2] at hne
    exact Bool.noConfusion hne

theorem taskKeyEq_false_symm {f : String} {a b : Task}
    (h : taskKeyEq f a b = false) : taskKeyEq f b a = false := by
  cases hx : taskKeyEq f b a
  · rfl
  · rw [taskKeyEq_symm hx] at h
    exact Bool.noConfusion h

instance (f : String) : IsTotal Task (ascRel f) := by
  constructor
  intro a b
  unfold ascRel
  cases hx : taskLt f b a
  · exact Or.inl rfl
  · exact Or.inr (taskLt_asymm hx)

instance (f : String) : IsTrans Task (ascRel f) := by
  constructor
  intro a b c hab hbc
  unfold ascRel at *
  cases hx : taskLt f c a
  · rfl
  · rcases taskLt_negtrans b hx with h1 | h1
    · rw [hbc] at h1
      exact Bool.noConfusion h1
    · rw [hab] at h1
      exact Bool.noConfusion h1

instance (f : String) : IsTotal Task (descRel f) := by
  constructor
  intro a b
  unfold descRel
  cases hx : taskLt f a b
  · exact Or.inl rfl
  · exact Or.inr (taskLt_asymm hx)

instance (f : String) : IsTrans Task (descRel f) := by
  constructor
  intro a b c hab hbc
  unfold descRel at *
  cases hx : taskLt f a c
  · rfl
  · rcases taskLt_negtrans b hx with h1 | h1
    · rw [hab] at h1
      exact Bool.noConfusion h1
    · rw [hbc] at h1
      exact Bool.noConfusion h1

/-! ## The dict built by repeated assignment

Python fills the argument dict with args[key] = val per match; these
lemmas show the resulting binding of a key is the value of its last
occurrence in the match list. -/

/-- First-of on options (the shape of a dict lookup falling through). -/
def orElseO {α : Type} (a b : Option α) : Option α :=
  match a with
  | some v => some v
  | none => b

/-- The value of the last (rightmost) occurrence of key k in a pair
list. -/
def lastVal (ps : List (String × String)) (k : String) : Option String :=
  (ps.reverse.find? (fun p => p.1 == k)).map (fun p => p.2)

theorem argsGet_cons (q : String × String) (d : Args) (k : String) :
    argsGet (q :: d) k = if q.1 == k then some q.2 else argsGet d k := by
  unfold argsGet
  cases hq : (q.1 == k) <;> simp [List.find?, hq]

theorem find?_append_or {α : Type} (p : α → Bool) (l1 l2 : List α) :
    (l1 ++ l2).find? p = orElseO (l1.find? p) (l2.find? p) := by
  induction l1 with
  | nil => simp [orElseO]
  | cons a t ih =>
    cases hp : p a <;> simp [List.find?, hp, ih, orElseO]

theorem orElseO_map {α β : Type} (f : α → β) (a b : Option α) :
    (orElseO a b).map f = orElseO (a.map f) (b.map f) := by
  cases a <;> simp [orElseO]

theorem lastVal_cons (q : String × String) (ps : List (String × String)) (k : String) :
    lastVal (q :: ps) k
      = orElseO (lastVal ps k) (if q.1 == k then some q.2 else none) := by
  unfold lastVal
  rw [List.reverse_cons, find?_append_or, orElseO_map]
  cases hq : (q.1 == k) <;> simp [List.find?, hq, orElseO]

theorem argsGet_map_set_ne (d : Args) (kv : String × String) (k : String)
    (hne : (kv.1 == k) = false) :
    argsGet (d.map (fun p => if p.1 == kv.1 then (p.1, kv.2) else p)) k
      = argsGet d k := by
  induction d with
  | nil => rfl
  | cons p d ih =>
    simp only [List.map_cons]
    by_cases hp : (p.1 == kv.1) = true
    · rw [if_pos hp]
      have h1 : p.1 = kv.1 := by simpa using hp
      have hpk : (p.1 == k) = false := by rw [h1]; exact hne
      rw [argsGet_cons, argsGet_cons]
      simp only [hpk, if_false]
      exact ih
    · rw [if_neg hp]
      rw [argsGet_cons, argsGet_cons]
      cases hk : (p.1 == k)
      · rw [if_neg (by simp [hk]), if_neg (by simp [hk])]
        exact ih
      · rw [if_pos rfl, if_pos rfl]

theorem argsGet_map_set_eq (d : Args) (kv : String × String) (k : String)
    (heq : (kv.1 == k) = true) (hmem : d.any (fun p => p.1 == kv.1) = true) :
    argsGet (d.map (fun p => if p.1 == kv.1 then (p.1, kv.2) else p)) k
      = some kv.2 := by
  induction d with
  | nil => exact absurd hmem (by simp)
  | cons p d ih =>
    simp only [List.map_cons]
    by_cases hp : (p.1 == kv.1) = true
    · rw [if_pos hp]
      have h1 : p.1 = kv.1 := by simpa using hp
      have h2 : kv.1 = k := by simpa using heq
      have hpk : (p.1 == k) = true := by simp [h1, h2]
      rw [argsGet_cons]
      simp [hpk]
    · rw [if_neg hp]
      rw [argsGet_cons]
      have hpk : (p.1 == k) = false := by
        cases hx : (p.1 == k)
        · rfl
        · have h1 : p.1 = k := by simpa using hx
          have h2 : kv.1 = k := by simpa using heq
          exact absurd (by simp [h1, h2] : (p.1 == kv.1) = true) hp
      simp only [hpk, if_false]
      refine ih ?_
      simp only [List.any_cons, Bool.or_eq_true] at hmem
      rcases hmem with h | h
      · exact absurd h hp
      · exact h

theorem argsGet_none_of_not_any (d : Args) (k : String)
    (h : d.any (fun p => p.1 == k) = false) : argsGet d k = none := by
  induction d with
  | nil => rfl
  | cons p d ih =>
    simp only [List.any_cons, Bool.or_eq_false_iff] at h
    rw [argsGet_cons, if_neg (by simp [h.1])]
    exact ih h.2

theorem argsGet_append_single (d : Args) (kv : String × String) (k : String) :
    argsGet (d ++ [kv]) k
      = orElseO (argsGet d k) (if kv.1 == k then some kv.2 else none) := by
  induction d with
  | nil =>
    rw [List.nil_append, argsGet_cons]
    cases hq : (kv.1 == k) <;> simp [hq, orElseO, argsGet]
  | cons p d ih =>
    rw [List.cons_append, argsGet_cons, argsGet_cons]
    cases hp : (p.1 == k) <;> simp [orElseO, ih]

theorem argsGet_dictInsert (d : Args) (kv : String × String) (k : String) :
    argsGet (dictInsert d kv) k = if kv.1 == k then some kv.2 else argsGet d k := by
  unfold dictInsert
  by_cases hmem : d.any (fun p => p.1 == kv.1) = true
  · rw [if_pos hmem]
    cases hk : (kv.1 == k)
    · rw [if_neg (by simp [hk])]
      exact argsGet_map_set_ne d kv k hk
    · rw [if_pos rfl]
      exact argsGet_map_set_eq d kv k hk hmem
  · rw [if_neg hmem]
    rw [argsGet_append_single]
    cases hk : (kv.1 == k)
    · rw [if_neg (by simp [hk])]
      cases hd : argsGet d k <;> simp [orElseO, hk, hd]
    · rw [if_pos rfl]
      have h1 : kv.1 = k := by simpa using hk
      have h2 : argsGet d k = none := by
        refine argsGet_none_of_not_any d k ?_
        rw [← h1]
        cases hx : d.any (fun p => p.1 == kv.1)
        · rfl
        · exact absurd hx hmem
      simp [h2, orElseO]

theorem foldl_dictInsert_argsGet (ps : List (String × String)) :
    ∀ (d : Args) (k : String),
      argsGet (ps.foldl dictInsert d) k = orElseO (lastVal ps k) (argsGet d k) := by
  induction ps with
  | nil =>
    intro d k
    simp [lastVal, orElseO]
  | cons q ps ih =>
    intro d k
    rw [List.foldl_cons, ih, lastVal_cons, argsGet_dictInsert]
    cases hl : lastVal ps k <;> cases hq : (q.1 == k) <;> simp [orElseO]

/-- The binding of a key in the dict built from the match list is the
value of the last occurrence of that key. -/
theorem buildDict_argsGet (ps : List (String × String)) (k : String) :
    argsGet (buildDict ps) k = lastVal ps k := by
  unfold buildDict
  rw [foldl_dictInsert_argsGet]
  cases hl : lastVal ps k <;> simp [orElseO, argsGet]

/-! ## Store update helpers -/

theorem updateFirst_split {p : Task → Bool} {f : Task → Task}
    (l1 : List Task) (t : Task) (l2 : List Task)
    (h1 : ∀ u ∈ l1, p u = false) (ht : p t = true) :
    updateFirst p f (l1 ++ t :: l2) = l1 ++ f t :: l2 := by
  induction l1 with
  | nil => simp [updateFirst, ht]
  | cons u l1 ih =>
    have hu : p u = false := h1 u (by simp)
    simp only [List.cons_append, updateFirst, hu]
    simp only [Bool.false_eq_true, if_false, List.cons.injEq, true_and]
    exact ih (fun v hv => h1 v (by simp [hv]))

theorem find?_split {p : Task → Bool} (l1 : List Task) (t : Task) (l2 : List Task)
    (h1 : ∀ u ∈ l1, p u = false) (ht : p t = true) :
    (l1 ++ t :: l2).find? p = some t := by
  induction l1 with
  | nil => simp [List.find?, ht]
  | cons u l1 ih =>
    have hu : p u = false := h1 u (by simp)
    simp only [List.cons_append, List.find?, hu]
    exact ih (fun v hv => h1 v (by simp [hv]))

theorem eraseIdx_findFirstIdx_filter {idv : Int} :
    ∀ {l : List Task}, (l.map Task.id).Nodup →
      ∀ {i : Nat}, findFirstIdx (fun t => ((t.id : Int) == idv)) l = some i →
        l.eraseIdx i = l.filter (fun t => !((t.id : Int) == idv)) := by
  intro l
  induction l with
  | nil =>
    intro _ i hfind
    simp [findFirstIdx] at hfind
  | cons t ts ih =>
    intro hnd i hfind
    unfold findFirstIdx at hfind
    by_cases hp : ((t.id : Int) == idv) = true
    · rw [if_pos hp] at hfind
      cases hfind
      have hid : (t.id : Int) = idv := by simpa using hp
      have hall : ∀ u ∈ ts, (!((u.id : Int) == idv)) = true := by
        intro u hu
        have hne : u.id ≠ t.id := by
          intro he
          have : t.id ∈ ts.map Task.id := by
            exact List.mem_map.mpr ⟨u, hu, he⟩
          exact (List.nodup_cons.mp hnd).1 this
        have : ((u.id : Int) == idv) = false := by
          cases hx : ((u.id : Int) == idv)
          · rfl
          · have h1 : (u.id : Int) = idv := by simpa using hx
            have : u.id = t.id := by
              have := h1.trans hid.symm
              exact_mod_cast this
            exact absurd this hne
        simp [this]
      rw [List.eraseIdx_zero, List.filter_cons]
      simp only [hp, Bool.not_true, Bool.false_eq_true, if_false]
      rw [List.tail_cons, (List.filter_eq_self.mpr hall)]
    · rw [if_neg hp] at hfind
      rcases Option.map_eq_some'.mp hfind with ⟨j, hj, hij⟩
      subst hij
      have hp2 : ((t.id : Int) == idv) = false := by
        cases hx : ((t.id : Int) == idv)
        · rfl
        · exact absurd hx hp
      rw [List.filter_cons]
      simp only [hp2, Bool.not_false, if_pos]
      have htail : (ts.map Task.id).Nodup := (List.nodup_cons.mp hnd).2
      rw [List.eraseIdx_cons_succ]
      rw [ih htail hj]

theorem findFirstIdx_eq_none_iff {p : Task → Bool} {l : List Task} :
    findFirstIdx p l = none ↔ ∀ t ∈ l, p t = false := by
  induction l with
  | nil => simp [findFirstIdx]
  | cons t ts ih =>
    unfold findFirstIdx
    by_cases hp : p t = true
    · simp [hp]
    · have hp2 : p t = false := by
        cases hx : p t
        · rfl
        · exact absurd hx hp
      simp [hp2, ih]

theorem findFirstIdx_isSome_of_mem {p : Task → Bool} {l : List Task} {t : Task}
    (hmem : t ∈ l) (hp : p t = true) : (findFirstIdx p l).isSome = true := by
  cases hfind : findFirstIdx p l
  · rw [findFirstIdx_eq_none_iff] at hfind
    rw [hfind t hmem] at hp
    exact Bool.noConfusion hp
  · rfl

/-- Membership in the to_delete list computed by batch delete is the
same as satisfying the match predicate, because the predicate depends
only on the task value. -/
theorem filter_not_contains_eq (l : List Task) (q : Task → Bool) :
    l.filter (fun t => !(decide (t ∈ l.filter q))) = l.filter (fun t => !(q t)) := by
  apply List.filter_congr
  intro t ht
  have hiff : (t ∈ l.filter q) ↔ (q t = true) := by
    simp [List.mem_filter, ht]
  cases hq : q t
  · simp [hiff, hq]
  · simp [hiff, hq]

/-! ## Error lines and the no-partial-mutation property -/

/-- Recognize the one-line diagnostics: a line that begins with the
characters of "Error " followed by anything. -/
def isErrorLine (s : String) : Bool :=
  match s.data with
  | 'E' :: 'r' :: 'r' :: 'o' :: 'r' :: ' ' :: _ => true
  | _ => false

theorem isErrorLine_success (l : String) :
    isErrorLine ("Command success: " ++ l) = false := rfl

theorem isErrorLine_render (e : Err) (l : String) :
    isErrorLine ("Error " ++ errName e ++ ": " ++ l) = true := by
  cases e <;> rfl

theorem cmdHelp_ok_state {orig : String} {st : State} {out : List String} {st2 : State}
    (h : cmdHelp orig st = .ok (out, st2)) : st2 = st := by
  unfold cmdHelp at h
  simp only [Except.ok.injEq, Prod.mk.injEq] at h
  exact h.2.symm

theorem cmdPrint_ok_state {args : Args} {orig : String} {st : State}
    {out : List String} {st2 : State}
    (h : cmdPrint args orig st = .ok (out, st2)) : st2 = st := by
  unfold cmdPrint at h
  split at h
  · exact absurd h (by simp)
  · split at h
    · exact absurd h (by simp)
    · simp only [Except.ok.injEq, Prod.mk.injEq] at h
      exact h.2.symm

theorem cmdList_ok_state {args : Args} {orig : String} {st : State}
    {out : List String} {st2 : State}
    (h : cmdList args orig st = .ok (out, st2)) : st2 = st := by
  unfold cmdList at h
  split at h
  · exact absurd h (by simp)
  · split at h
    · split at h
      · exact absurd h (by simp)
      · split at h
        · exact absurd h (by simp)
        · simp only [Except.ok.injEq, Prod.mk.injEq] at h
          exact h.2.symm
    · exact absurd h (by simp)

theorem cmdAdd_ok_out {args : Args} {orig now : String} {st : State}
    {out : List String} {st2 : State}
    (h : cmdAdd args orig now st = .ok (out, st2)) :
    out = ["Command success: " ++ orig] := by
  unfold cmdAdd at h
  dsimp only at h
  split at h
  · exact absurd h (by simp)
  · split at h
    · exact absurd h (by simp)
    · split at h
      · exact absurd h (by simp)
      · split at h
        · exact absurd h (by simp)
        · split at h
          · exact absurd h (by simp)
          · split at h
            · exact absurd h (by simp)
            · simp only [Except.ok.injEq, Prod.mk.injEq] at h
              exact h.1.symm

theorem cmdMod_ok_out {args : Args} {orig : String} {st : State}
    {out : List String} {st2 : State}
    (h : cmdMod args orig st = .ok (out, st2)) :
    out = ["Command success: " ++ orig] := by
  unfold cmdMod at h
  dsimp only at h
  split at h
  · exact absurd h (by simp)
  · split at h
    · split at h
      · exact absurd h (by simp)
      · split at h
        · exact absurd h (by simp)
        · split at h
          · exact absurd h (by simp)
          · split at h
            · split at h
              · exact absurd h (by simp)
              · simp only [Except.ok.injEq, Prod.mk.injEq] at h
                exact h.1.symm
            · split at h
              · split at h
                · exact absurd h (by simp)
                · simp only [Except.ok.injEq, Prod.mk.injEq] at h
                  exact h.1.symm
              · split at h
                · split at h
                  · exact absurd h (by simp)
                  · simp only [Except.ok.injEq, Prod.mk.injEq] at h
                    exact h.1.symm
                · split at h
                  · split at h
                    · exact absurd h (by simp)
                    · simp only [Except.ok.injEq, Prod.mk.injEq] at h
                      exact h.1.symm
                  · split at h
                    · exact absurd h (by simp)
                    · split at h
                      · exact absurd h (by simp)
                      · split at h
                        · exact absurd h (by simp)
                        · simp only [Except.ok.injEq, Prod.mk.injEq] at h
                          exact h.1.symm
    · exact absurd h (by simp)

theorem cmdDone_ok_out {args : Args} {orig : String} {st : State}
    {out : List String} {st2 : State}
    (h : cmdDone args orig st = .ok (out, st2)) :
    out = ["Command success: " ++ orig] := by
  unfold cmdDone at h
  split at h
  · exact absurd h (by simp)
  · split at h
    · exact absurd h (by simp)
    · split at h
      · exact absurd h (by simp)
      · split at h
        · exact absurd h (by simp)
        · simp only [Except.ok.injEq, Prod.mk.injEq] at h
          exact h.1.symm

theorem cmdDelete_ok_out {args : Args} {orig : String} {st : State}
    {out : List String} {st2 : State}
    (h : cmdDelete args orig st = .ok (out, st2)) :
    out = ["Command success: " ++ orig] := by
  unfold cmdDelete at h
  dsimp only at h
  split at h
  · exact absurd h (by simp)
  · split at h
    · split at h
      · exact absurd h (by simp)
      · split at h
        · exact absurd h (by simp)
        · split at h
          · exact absurd h (by simp)
          · simp only [Except.ok.injEq, Prod.mk.injEq] at h
            exact h.1.symm
    · split at h
      · split at h
        · exact absurd h (by simp)
        · split at h
          · exact absurd h (by simp)
          · simp only [Except.ok.injEq, Prod.mk.injEq] at h
            exact h.1.symm
      · exact absurd h (by simp)

/-- Every branch of line processing either leaves the state untouched or
prints exactly the single success line (the mutating commands add, mod,
done and delete print nothing else). -/
theorem processLine_state_cases (now line : String) (st : State) :
    (processLine now line st).2 = st ∨
      (processLine now line st).1 = ["Command success: " ++ rstripNewlines line] := by
  unfold processLine
  dsimp only
  split_ifs
  · exact Or.inl rfl
  · exact Or.inl rfl
  · unfold afterLengthCheck
    split_ifs
    · exact Or.inl rfl
    · split
      · exact Or.inl rfl
      · split
        · exact Or.inl rfl
        · unfold dispatchCommand
          split_ifs
          · exact Or.inl rfl
          · split
            case _ r heq =>
              obtain ⟨out, st2⟩ := r
              exact Or.inl (cmdHelp_ok_state heq)
            case _ => exact Or.inl rfl
          · split
            case _ r heq =>
              obtain ⟨out, st2⟩ := r
              exact Or.inl (cmdPrint_ok_state heq)
            case _ => exact Or.inl rfl
          · split
            case _ r heq =>
              obtain ⟨out, st2⟩ := r
              exact Or.inr (cmdAdd_ok_out heq)
            case _ => exact Or.inl rfl
          · split
            case _ r heq =>
              obtain ⟨out, st2⟩ := r
              exact Or.inl (cmdList_ok_state heq)
            case _ => exact Or.inl rfl
          · split
            case _ r heq =>
              obtain ⟨out, st2⟩ := r
              exact Or.inr (cmdMod_ok_out heq)
            case _ => exact Or.inl rfl
          · split
            case _ r heq =>
              obtain ⟨out, st2⟩ := r
              exact Or.inr (cmdDone_ok_out heq)
            case _ => exact Or.inl rfl
          · split
            case _ r heq =>
              obtain ⟨out, st2⟩ := r
              exact Or.inr (cmdDelete_ok_out heq)
            case _ => exact Or.inl rfl
          · exact Or.inl rfl

/-! ## Permutation, sortedness and stability of the sorting engine -/

theorem sortTasksForPrint_perm (ts : List Task) (f dir : String) :
    (sortTasksForPrint ts f dir).Perm ts := by
  unfold sortTasksForPrint
  split_ifs <;> exact List.perm_insertionSort _ _

theorem sortTasksForPrint_sorted_asc (ts : List Task) (f : String) :
    (sortTasksForPrint ts f "asc").Sorted (ascRel f) := by
  unfold sortTasksForPrint
  rw [if_neg (by decide)]
  exact List.sorted_insertionSort _ _

theorem sortTasksForPrint_sorted_desc (ts : List Task) (f : String) :
    (sortTasksForPrint ts f "desc").Sorted (descRel f) := by
  unfold sortTasksForPrint
  rw [if_pos (by decide)]
  exact List.sorted_insertionSort _ _

/-- Stability core: sorting with any insertion relation that holds
between every two tasks tying with t0 leaves the subsequence of such
tasks untouched. -/
theorem insertionSort_filter_tie {f : String} {t0 : Task}
    (r : Task → Task → Prop) [DecidableRel r]
    (htie : ∀ u w : Task, taskKeyEq f u t0 = true → taskKeyEq f w t0 = true → r u w)
    (ts : List Task) :
    (List.insertionSort r ts).filter (fun t => taskKeyEq f t t0)
      = ts.filter (fun t => taskKeyEq f t t0) := by
  set p := fun t => taskKeyEq f t t0 with hp
  have hpair : (ts.filter p).Pairwise r := by
    apply List.pairwise_of_forall_mem_list
    intro u hu w hw
    exact htie u w (List.mem_filter.mp hu).2 (List.mem_filter.mp hw).2
  have hsub : List.Sublist (ts.filter p) (List.insertionSort r ts) :=
    List.sublist_insertionSort hpair (List.filter_sublist ts)
  have hsub2 : List.Sublist (ts.filter p) ((List.insertionSort r ts).filter p) := by
    have h1 := hsub.filter p
    have hself : (ts.filter p).filter p = ts.filter p :=
      List.filter_eq_self.mpr (fun a ha => (List.mem_filter.mp ha).2)
    rwa [hself] at h1
  have hlen : (ts.filter p).length = ((List.insertionSort r ts).filter p).length :=
    (((List.perm_insertionSort r ts).filter p).length_eq).symm
  exact (hsub2.eq_of_length hlen).symm

theorem sortTasksForPrint_stable (ts : List Task) (f dir : String) (t0 : Task) :
    (sortTasksForPrint ts f dir).filter (fun t => taskKeyEq f t t0)
      = ts.filter (fun t => taskKeyEq f t t0) := by
  unfold sortTasksForPrint
  split_ifs
  · refine insertionSort_filter_tie (descRel f) ?_ ts
    intro u w hu hw
    unfold descRel
    exact taskLt_false_of_keyEq (taskKeyEq_trans hu (taskKeyEq_symm hw))
  · refine insertionSort_filter_tie (ascRel f) ?_ ts
    intro u w hu hw
    unfold ascRel
    exact taskLt_false_of_keyEq (taskKeyEq_trans hw (taskKeyEq_symm hu))

/-- When no two tasks of the list tie on the sort key, the descending
order is exactly the reverse of the ascending order. -/
theorem sortTasksForPrint_desc_eq_reverse (ts : List Task) (f : String)
    (hdist : ts.Pairwise (fun a b => taskKeyEq f a b = false)) :
    sortTasksForPrint ts f "desc" = (sortTasksForPrint ts f "asc").reverse := by
  have hanti : IsAntisymm Task (fun a b : Task => taskLt f b a = true) := by
    constructor
    intro a b h1 h2
    rw [taskLt_asymm h1] at h2
    exact Bool.noConfusion h2
  have hsymm : Symmetric (fun a b : Task => taskKeyEq f a b = false) :=
    fun _ _ h => taskKeyEq_false_symm h
  have hpermd : (sortTasksForPrint ts f "desc").Perm ts := sortTasksForPrint_perm ts f "desc"
  have hperma : (sortTasksForPrint ts f "asc").Perm ts := sortTasksForPrint_perm ts f "asc"
  have hdistd : (sortTasksForPrint ts f "desc").Pairwise (fun a b => taskKeyEq f a b = false) :=
    (hpermd.pairwise_iff (fun h => hsymm h)).mpr hdist
  have hdista : (sortTasksForPrint ts f "asc").Pairwise (fun a b => taskKeyEq f a b = false) :=
    (hperma.pairwise_iff (fun h => hsymm h)).mpr hdist
  have hs1 : (sortTasksForPrint ts f "desc").Pairwise (fun a b : Task => taskLt f b a = true) := by
    have := (sortTasksForPrint_sorted_desc ts f).and hdistd
    refine this.imp ?_
    intro a b hab
    exact taskLt_of_not_keyEq hab.2 hab.1
  have hs2 : (sortTasksForPrint ts f "asc").reverse.Pairwise
      (fun a b : Task => taskLt f b a = true) := by
    rw [List.pairwise_reverse]
    have := (sortTasksForPrint_sorted_asc ts f).and hdista
    refine this.imp ?_
    intro a b hab
    exact taskLt_of_not_keyEq (taskKeyEq_false_symm hab.2) hab.1
  have hperm : (sortTasksForPrint ts f "desc").Perm ((sortTasksForPrint ts f "asc").reverse) :=
    hpermd.trans (hperma.symm.trans (sortTasksForPrint ts f "asc").reverse_perm.symm)
  exact List.eq_of_perm_of_sorted hperm hs1 hs2

/-- C7: For every store and every existing task id, a mod command whose
property is id or ctime always fails with InvalidArgument, leaving the
targeted task (and the whole store) unchanged; at the line level the
processing of such a command prints the InvalidArgument diagnostic and
returns the state untouched. -/
theorem C7_mod_id_ctime_fail (args : Args) (orig s prop v now line rest : String)
    (idv : Int) (st : State)
    (hall : args.all (fun p => ["id", "property", "new_val"].contains p.1) = true)
    (hid : argsGet args "id" = some s)
    (hprop : argsGet args "property" = some prop)
    (hnew : argsGet args "new_val" = some v)
    (hpint : pyInt s = some idv)
    (hex : ∃ t ∈ st.tasks, ((t.id : Int) == idv) = true)
    (hpc : prop = "id" ∨ prop = "ctime") :
    cmdMod args orig st = .error .invalidArgument ∧
      (pyStrip (rstripNewlines line) ≠ "" →
        (rstripNewlines line).length ≤ 1024 →
        startsWithHash (pyStrip (rstripNewlines line)) = false →
        extractCmd (rstripNewlines line) = some ("mod", rest) →
        rest ≠ "" →
        tokenizeArgsSegment rest = .ok args →
        processLine now line st
          = (["Error InvalidArgument: " ++ rstripNewlines line], st)) := by
  have hm : ∀ o : String, cmdMod args o st = .error .invalidArgument := by
    intro o
    unfold cmdMod
    rw [if_neg (by rw [hall]; decide)]
    rw [hid, hprop, hnew]
    dsimp only
    rw [hpint]
    dsimp only
    obtain ⟨t, hmem, hidt⟩ := hex
    have hfind : (st.tasks.find? (fun u => (u.id : Int) == idv)).isSome = true := by
      rw [List.find?_isSome]
      exact ⟨t, hmem, hidt⟩
    rcases hpc with h | h <;> subst h
    · rw [if_neg (by decide)]
      cases hf : st.tasks.find? (fun u => (u.id : Int) == idv) with
      | none =>
        rw [hf] at hfind
        exact Bool.noConfusion hfind
      | some t0 =>
        dsimp only
        rw [if_neg (by decide), if_neg (by decide), if_neg (by decide),
          if_neg (by decide), if_pos (by decide)]
    · rw [if_neg (by decide)]
      cases hf : st.tasks.find? (fun u => (u.id : Int) == idv) with
      | none =>
        rw [hf] at hfind
        exact Bool.noConfusion hfind
      | some t0 =>
        dsimp only
        rw [if_neg (by decide), if_neg (by decide), if_neg (by decide),
          if_neg (by decide), if_neg (by decide), if_pos (by decide)]
  refine ⟨hm orig, ?_⟩
  intro hblank hlen hhash hext hrest htok
  unfold processLine
  dsimp only
  rw [if_neg (by simp [hblank]), if_neg (by omega)]
  unfold afterLengthCheck
  rw [if_neg (by simp [hhash])]
  rw [hext]
  dsimp only
  rw [if_pos (by simp [hrest])]
  rw [htok]
  dsimp only
  unfold dispatchCommand
  rw [if_neg (by decide), if_neg (by decide), if_neg (by decide), if_neg (by decide),
    if_pos (by decide)]
  rw [hm (rstripNewlines line)]
  rfl

theorem C7_mod_id_ctime_fail_witness :
    cmdMod [("id", "0"), ("property", "id"), ("new_val", "x")] "o"
        ⟨[⟨"A", "NONE", "", "NONE", "NONE", "MEDIUM", false, "c", 0⟩], 1, [0]⟩
      = .error .invalidArgument ∧
      processLine "now" "mod id=0 property=id new_val=x"
          ⟨[⟨"A", "NONE", "", "NONE", "NONE", "MEDIUM", false, "c", 0⟩], 1, [0]⟩
        = (["Error InvalidArgument: mod id=0 property=id new_val=x"],
           ⟨[⟨"A", "NONE", "", "NONE", "NONE", "MEDIUM", false, "c", 0⟩], 1, [0]⟩) := by
  have h := C7_mod_id_ctime_fail
    [("id", "0"), ("property", "id"), ("new_val", "x")] "o" "0" "id" "x" "now"
    "mod id=0 property=id new_val=x" "id=0 property=id new_val=x" 0
    ⟨[⟨"A", "NONE", "", "NONE", "NONE", "MEDIUM", false, "c", 0⟩], 1, [0]⟩
    (by decide) (by decide) (by decide) (by decide) (by decide)
    ⟨⟨"A", "NONE", "", "NONE", "NONE", "MEDIUM", false, "c", 0⟩, by decide, by decide⟩
    (Or.inl rfl)
  exact ⟨h.1, h.2 (by decide) (by decide) (by decide) (by decide) (by decide) (by decide)⟩

/-- C10: For every store and every existing task id, a mod of property
done succeeds exactly when the new value is one of the four literals
True, true, False, false, setting done to the corresponding boolean on
the targeted task; every other value fails with InvalidDoneStatus and
the store is unchanged. -/
theorem C10_mod_done (args : Args) (orig s v : String) (idv : Int) (st : State)
    (l1 l2 : List Task) (t : Task)
    (hall : args.all (fun p => ["id", "property", "new_val"].contains p.1) = true)
    (hid : argsGet args "id" = some s)
    (hprop : argsGet args "property" = some "done")
    (hnew : argsGet args "new_val" = some v)
    (hpint : pyInt s = some idv)
    (hsplit : st.tasks = l1 ++ t :: l2)
    (hfirst : ∀ u ∈ l1, ((u.id : Int) == idv) = false)
    (hidt : ((t.id : Int) == idv) = true) :
    ((v = "True" ∨ v = "true") →
      cmdMod args orig st = .ok (["Command success: " ++ orig],
        { st with tasks := l1 ++ { t with done := true } :: l2 })) ∧
      ((v = "False" ∨ v = "false") →
        cmdMod args orig st = .ok (["Command success: " ++ orig],
          { st with tasks := l1 ++ { t with done := false } :: l2 })) ∧
      (v ≠ "True" → v ≠ "true" → v ≠ "False" → v ≠ "false" →
        cmdMod args orig st = .error .invalidDoneStatus) := by
  have hred : cmdMod args orig st =
      (match parseBoolStr v with
       | none => .error .invalidDoneStatus
       | some b => .ok (["Command success: " ++ orig],
           { st with tasks := updateFirst (fun u => (u.id : Int) == idv) (fun u => { u with done := b }) st.tasks })) := by
    unfold cmdMod
    rw [if_neg (by rw [hall]; decide)]
    rw [hid, hprop, hnew]
    dsimp only
    rw [hpint]
    dsimp only
    rw [if_neg (by decide)]
    have hf : st.tasks.find? (fun u => (u.id : Int) == idv) = some t := by
      rw [hsplit]
      exact find?_split l1 t l2 hfirst hidt
    rw [hf]
    dsimp only
    rw [if_neg (by decide), if_neg (by decide), if_neg (by decide), if_pos (by decide)]
  have hupd : ∀ b : Bool,
      updateFirst (fun u => (u.id : Int) == idv) (fun u => { u with done := b }) st.tasks
        = l1 ++ { t with done := b } :: l2 := by
    intro b
    rw [hsplit]
    exact updateFirst_split l1 t l2 hfirst hidt
  refine ⟨?_, ?_, ?_⟩
  · rintro (h | h) <;> subst h
    · rw [hred, show parseBoolStr "True" = some true from rfl]
      dsimp only
      rw [hupd true]
    · rw [hred, show parseBoolStr "true" = some true from rfl]
      dsimp only
      rw [hupd true]
  · rintro (h | h) <;> subst h
    · rw [hred, show parseBoolStr "False" = some false from rfl]
      dsimp only
      rw [hupd false]
    · rw [hred, show parseBoolStr "false" = some false from rfl]
      dsimp only
      rw [hupd false]
  · intro h1 h2 h3 h4
    rw [hred]
    have hb : parseBoolStr v = none := by
      unfold parseBoolStr
      rw [if_neg (by simp [h1, h2]), if_neg (by simp [h3, h4])]
    rw [hb]

theorem C10_mod_done_witness :
    cmdMod [("id", "0"), ("property", "done"), ("new_val", "true")] "o"
        ⟨[⟨"A", "NONE", "", "NONE", "NONE", "MEDIUM", false, "c", 0⟩], 1, [0]⟩
      = .ok (["Command success: o"],
          ⟨[⟨"A", "NONE", "", "NONE", "NONE", "MEDIUM", true, "c", 0⟩], 1, [0]⟩) ∧
      cmdMod [("id", "0"), ("property", "done"), ("new_val", "nope")] "o"
          ⟨[⟨"A", "NONE", "", "NONE", "NONE", "MEDIUM", false, "c", 0⟩], 1, [0]⟩
        = .error .invalidDoneStatus := by
  have h1 := C10_mod_done [("id", "0"), ("property", "done"), ("new_val", "true")]
    "o" "0" "true" 0
    ⟨[⟨"A", "NONE", "", "NONE", "NONE", "MEDIUM", false, "c", 0⟩], 1, [0]⟩
    [] [] ⟨"A", "NONE", "", "NONE", "NONE", "MEDIUM", false, "c", 0⟩
    (by decide) (by decide) (by decide) (by decide) (by decide) (by decide)
    (by intro u hu; exact absurd hu (List.not_mem_nil u)) (by decide)
  have h2 := C10_mod_done [("id", "0"), ("property", "done"), ("new_val", "nope")]
    "o" "0" "nope" 0
    ⟨[⟨"A", "NONE", "", "NONE", "NONE", "MEDIUM", false, "c", 0⟩], 1, [0]⟩
    [] [] ⟨"A", "NONE", "", "NONE", "NONE", "MEDIUM", false, "c", 0⟩
    (by decide) (by decide) (by decide) (by decide) (by decide) (by decide)
    (by intro u hu; exact absurd hu (List.not_mem_nil u)) (by decide)
  exact ⟨h1.1 (Or.inr rfl), h2.2.2 (by decide) (by decide) (by decide) (by decide)⟩

end Taskmgr

namespace Taskmgr

/-! ## Claims -/

/-- C3: For every command line and every store state, if processing the
line produces an error line (any error kind), then the task store and
the id counter after processing equal the task store and id counter
before processing - no partial mutation on failure. -/
theorem C3_error_leaves_state (now line : String) (st : State)
    (h : ∃ out ∈ (processLine now line st).1, isErrorLine out = true) :
    (processLine now line st).2 = st := by
  rcases processLine_state_cases now line st with hc | hc
  · exact hc
  · rcases h with ⟨out, hmem, herr⟩
    rw [hc] at hmem
    simp only [List.mem_singleton] at hmem
    subst hmem
    rw [isErrorLine_success] at herr
    exact Bool.noConfusion herr

theorem C3_error_leaves_state_witness :
    (∃ out ∈ (processLine "x" "delete id=999" initState).1, isErrorLine out = true) ∧
      (processLine "x" "delete id=999" initState).2 = initState := by
  have h : ∃ out ∈ (processLine "x" "delete id=999" initState).1, isErrorLine out = true :=
    ⟨"Error TaskNotFound: delete id=999", by decide, by decide⟩
  exact ⟨h, C3_error_leaves_state "x" "delete id=999" initState h⟩

set_option maxRecDepth 80000 in
/-- C5 counterexample: the claim says every line longer than 1024
characters fails with TooLongLine, but a line of 1025 blanks is caught
by the blank-line test, which the source runs before the length check,
and is silently ignored: processing prints nothing at all. -/
theorem C5_counterexample :
    1024 < (rstripNewlines (String.mk (List.replicate 1025 ' '))).length ∧
      processLine "x" (String.mk (List.replicate 1025 ' ')) initState = ([], initState) := by
  constructor
  · decide
  · decide

/-- C5 (amended): an entirely-whitespace line is silently ignored
whatever its length; for every other line, length (after stripping
trailing newlines) above 1024 fails with TooLongLine before any
tokenization, and length at most 1024 - in particular exactly 1024 -
passes the length check and proceeds to the rest of line processing
(comment skipping, tokenization, dispatch). -/
theorem C5_length_check (now line : String) (st : State) :
    (pyStrip (rstripNewlines line) = "" → processLine now line st = ([], st)) ∧
      (pyStrip (rstripNewlines line) ≠ "" → 1024 < (rstripNewlines line).length →
        processLine now line st
          = (["Error TooLongLine: " ++ rstripNewlines line], st)) ∧
      (pyStrip (rstripNewlines line) ≠ "" → (rstripNewlines line).length ≤ 1024 →
        processLine now line st = afterLengthCheck now (rstripNewlines line) st) := by
  refine ⟨?_, ?_, ?_⟩
  · intro h
    unfold processLine
    dsimp only
    rw [if_pos (by simp [h])]
  · intro h1 h2
    unfold processLine
    dsimp only
    rw [if_neg (by simp [h1]), if_pos h2]
  · intro h1 h2
    unfold processLine
    dsimp only
    rw [if_neg (by simp [h1]), if_neg (by omega)]

set_option maxRecDepth 80000 in
theorem C5_length_check_witness :
    processLine "x" " " initState = ([], initState) ∧
      processLine "x" (String.mk (List.replicate 1025 'x')) initState
        = (["Error TooLongLine: " ++ rstripNewlines (String.mk (List.replicate 1025 'x'))], initState) ∧
      processLine "x" "help" initState = afterLengthCheck "x" (rstripNewlines "help") initState :=
  ⟨(C5_length_check "x" " " initState).1 (by decide),
   (C5_length_check "x" (String.mk (List.replicate 1025 'x')) initState).2.1
     (by decide) (by decide),
   (C5_length_check "x" "help" initState).2.2 (by decide) (by decide)⟩

/-- C9: when the same key occurs in more than one recognized key=value
token of an argument segment, the tokenizer returns a mapping binding
that key to the value of its last (rightmost) occurrence. -/
theorem C9_duplicate_keys_last_wins (seg : String) (args : Args) (k : String)
    (hok : tokenizeArgsSegment seg = .ok args)
    (hdup : 2 ≤ ((tokenizeRaw seg.data).1.filter (fun p => p.1 == k)).length) :
    argsGet args k = lastVal (tokenizeRaw seg.data).1 k := by
  unfold tokenizeArgsSegment at hok
  dsimp only at hok
  split at hok
  · simp only [Except.ok.injEq] at hok
    subst hok
    exact buildDict_argsGet (tokenizeRaw seg.data).1 k
  · exact absurd hok (by simp)

theorem C9_duplicate_keys_last_wins_witness :
    tokenizeArgsSegment "a=1 a=2" = .ok [("a", "2")] ∧
      2 ≤ ((tokenizeRaw ("a=1 a=2").data).1.filter (fun p => p.1 == "a")).length ∧
      argsGet [("a", "2")] "a" = lastVal (tokenizeRaw ("a=1 a=2").data).1 "a" :=
  ⟨by decide, by decide,
   C9_duplicate_keys_last_wins "a=1 a=2" [("a", "2")] "a" (by decide) (by decide)⟩

/-- C8: delete with id alone removes exactly the one task with that id
(TaskNotFound if absent, InvalidArgumentType if the id is not an
integer, TooManyArguments when id is combined with property or val), and
delete with property and val removes exactly the tasks whose stringified
property value case-insensitively equals val, preserving the relative
order of the remaining tasks (InvalidArgument for an unrecognized
property, TaskNotFound when no task matches). -/
theorem C8_delete_semantics (args : Args) (orig : String) (st : State) :
    (∀ s, args.all (fun p => ["id", "property", "val"].contains p.1) = true →
      argsGet args "id" = some s → argsGet args "property" = none →
      argsGet args "val" = none → pyInt s = none →
      cmdDelete args orig st = .error .invalidArgumentType) ∧
    ((argsGet args "id").isSome = true →
      ((argsGet args "property").isSome = true ∨ (argsGet args "val").isSome = true) →
      cmdDelete args orig st = .error .tooManyArguments) ∧
    (∀ s idv, args.all (fun p => ["id", "property", "val"].contains p.1) = true →
      argsGet args "id" = some s → argsGet args "property" = none →
      argsGet args "val" = none → pyInt s = some idv →
      (∀ t ∈ st.tasks, ((t.id : Int) == idv) = false) →
      cmdDelete args orig st = .error .taskNotFound) ∧
    (∀ s idv, args.all (fun p => ["id", "property", "val"].contains p.1) = true →
      argsGet args "id" = some s → argsGet args "property" = none →
      argsGet args "val" = none → pyInt s = some idv →
      (st.tasks.map Task.id).Nodup →
      (∃ t ∈ st.tasks, ((t.id : Int) == idv) = true) →
      cmdDelete args orig st = .ok (["Command success: " ++ orig],
        { st with tasks := st.tasks.filter (fun t => !((t.id : Int) == idv)) })) ∧
    (∀ prop val, args.all (fun p => ["id", "property", "val"].contains p.1) = true →
      argsGet args "id" = none → argsGet args "property" = some prop →
      argsGet args "val" = some val → PROPERTIES.contains prop = false →
      cmdDelete args orig st = .error .invalidArgument) ∧
    (∀ prop val, args.all (fun p => ["id", "property", "val"].contains p.1) = true →
      argsGet args "id" = none → argsGet args "property" = some prop →
      argsGet args "val" = some val → PROPERTIES.contains prop = true →
      st.tasks.filter (fun t => pyLower (stringifyProp t prop) == pyLower val) = [] →
      cmdDelete args orig st = .error .taskNotFound) ∧
    (∀ prop val, args.all (fun p => ["id", "property", "val"].contains p.1) = true →
      argsGet args "id" = none → argsGet args "property" = some prop →
      argsGet args "val" = some val → PROPERTIES.contains prop = true →
      st.tasks.filter (fun t => pyLower (stringifyProp t prop) == pyLower val) ≠ [] →
      cmdDelete args orig st = .ok (["Command success: " ++ orig],
        { st with tasks := st.tasks.filter (fun t => !(pyLower (stringifyProp t prop) == pyLower val)) })) := by
  refine ⟨?_, ?_, ?_, ?_, ?_, ?_, ?_⟩
  · intro s hall hid hpn hvn hpint
    unfold cmdDelete
    rw [if_neg (by rw [hall]; decide)]
    rw [hid, hpn, hvn]
    rw [if_pos (by rfl), if_neg (by decide)]
    simp only [Option.getD_some]
    rw [hpint]
  · intro hids hor
    unfold cmdDelete
    by_cases hall2 : (args.all (fun p => ["id", "property", "val"].contains p.1)) = true
    · rw [if_neg (by rw [hall2]; decide)]
      rw [if_pos hids]
      rw [if_pos (by rcases hor with h | h <;> simp [h])]
    · have hall3 : (args.all (fun p => ["id", "property", "val"].contains p.1)) = false := by
        cases hx : args.all (fun p => ["id", "property", "val"].contains p.1)
        · rfl
        · exact absurd hx hall2
      rw [if_pos (by rw [hall3]; decide)]
  · intro s idv hall hid hpn hvn hpint hnone
    unfold cmdDelete
    rw [if_neg (by rw [hall]; decide)]
    rw [hid, hpn, hvn]
    rw [if_pos (by rfl), if_neg (by decide)]
    simp only [Option.getD_some]
    rw [hpint]
    dsimp only
    rw [findFirstIdx_eq_none_iff.mpr hnone]
  · intro s idv hall hid hpn hvn hpint hnd hex
    unfold cmdDelete
    rw [if_neg (by rw [hall]; decide)]
    rw [hid, hpn, hvn]
    rw [if_pos (by rfl), if_neg (by decide)]
    simp only [Option.getD_some]
    rw [hpint]
    dsimp only
    obtain ⟨t, hmem, hidt⟩ := hex
    have hsome : (findFirstIdx (fun t => (t.id : Int) == idv) st.tasks).isSome = true :=
      findFirstIdx_isSome_of_mem hmem hidt
    cases hf : findFirstIdx (fun t => (t.id : Int) == idv) st.tasks with
    | none =>
      rw [hf] at hsome
      exact Bool.noConfusion hsome
    | some i =>
      dsimp only
      rw [eraseIdx_findFirstIdx_filter hnd hf]
  · intro prop val hall hidn hp hv hcont
    unfold cmdDelete
    rw [if_neg (by rw [hall]; decide)]
    rw [hidn]
    rw [if_neg (by decide)]
    rw [hp, hv]
    dsimp only
    rw [if_pos (by rw [hcont]; rfl)]
  · intro prop val hall hidn hp hv hcont hempty
    unfold cmdDelete
    rw [if_neg (by rw [hall]; decide)]
    rw [hidn]
    rw [if_neg (by decide)]
    rw [hp, hv]
    dsimp only
    rw [if_neg (by rw [hcont]; decide)]
    rw [hempty]
    rw [if_pos (by rfl)]
  · intro prop val hall hidn hp hv hcont hne
    unfold cmdDelete
    rw [if_neg (by rw [hall]; decide)]
    rw [hidn]
    rw [if_neg (by decide)]
    rw [hp, hv]
    dsimp only
    rw [if_neg (by rw [hcont]; decide)]
    rw [if_neg (by simp [List.isEmpty_iff, hne])]
    rw [filter_not_contains_eq]

theorem C8_delete_semantics_witness :
    cmdDelete [("id", "0")] "o"
        ⟨[⟨"A", "School", "", "NONE", "NONE", "MEDIUM", false, "c", 0⟩,
          ⟨"B", "Work", "", "NONE", "NONE", "MEDIUM", false, "c", 1⟩], 2, [0, 1]⟩
      = .ok (["Command success: o"],
          ⟨[⟨"B", "Work", "", "NONE", "NONE", "MEDIUM", false, "c", 1⟩], 2, [0, 1]⟩) ∧
      cmdDelete [("id", "9")] "o"
          ⟨[⟨"A", "School", "", "NONE", "NONE", "MEDIUM", false, "c", 0⟩], 1, [0]⟩
        = .error .taskNotFound ∧
      cmdDelete [("id", "x")] "o" initState = .error .invalidArgumentType ∧
      cmdDelete [("id", "0"), ("val", "A")] "o" initState = .error .tooManyArguments ∧
      cmdDelete [("property", "type"), ("val", "SCHOOL")] "o"
          ⟨[⟨"A", "School", "", "NONE", "NONE", "MEDIUM", false, "c", 0⟩,
            ⟨"B", "Work", "", "NONE", "NONE", "MEDIUM", false, "c", 1⟩], 2, [0, 1]⟩
        = .ok (["Command success: o"],
            ⟨[⟨"B", "Work", "", "NONE", "NONE", "MEDIUM", false, "c", 1⟩], 2, [0, 1]⟩) ∧
      cmdDelete [("property", "bogus"), ("val", "x")] "o" initState
        = .error .invalidArgument ∧
      cmdDelete [("property", "type"), ("val", "nothing")] "o"
          ⟨[⟨"A", "School", "", "NONE", "NONE", "MEDIUM", false, "c", 0⟩], 1, [0]⟩
        = .error .taskNotFound := by
  refine ⟨?_, ?_, ?_, ?_, ?_, ?_, ?_⟩
  · have h := (C8_delete_semantics [("id", "0")] "o"
      ⟨[⟨"A", "School", "", "NONE", "NONE", "MEDIUM", false, "c", 0⟩,
        ⟨"B", "Work", "", "NONE", "NONE", "MEDIUM", false, "c", 1⟩], 2, [0, 1]⟩).2.2.2.1
      "0" 0 (by decide) (by decide) (by decide) (by decide) (by decide) (by decide)
      ⟨⟨"A", "School", "", "NONE", "NONE", "MEDIUM", false, "c", 0⟩, by decide, by decide⟩
    rw [h]
    decide
  · exact (C8_delete_semantics [("id", "9")] "o"
      ⟨[⟨"A", "School", "", "NONE", "NONE", "MEDIUM", false, "c", 0⟩], 1, [0]⟩).2.2.1
      "9" 9 (by decide) (by decide) (by decide) (by decide) (by decide) (by decide)
  · exact (C8_delete_semantics [("id", "x")] "o" initState).1
      "x" (by decide) (by decide) (by decide) (by decide) (by decide)
  · exact (C8_delete_semantics [("id", "0"), ("val", "A")] "o" initState).2.1
      (by decide) (Or.inr (by decide))
  · have h := (C8_delete_semantics [("property", "type"), ("val", "SCHOOL")] "o"
      ⟨[⟨"A", "School", "", "NONE", "NONE", "MEDIUM", false, "c", 0⟩,
        ⟨"B", "Work", "", "NONE", "NONE", "MEDIUM", false, "c", 1⟩], 2, [0, 1]⟩).2.2.2.2.2.2
      "type" "SCHOOL" (by decide) (by decide) (by decide) (by decide) (by decide) (by decide)
    rw [h]
    decide
  · exact (C8_delete_semantics [("property", "bogus"), ("val", "x")] "o" initState).2.2.2.2.1
      "bogus" "x" (by decide) (by decide) (by decide) (by decide) (by decide)
  · exact (C8_delete_semantics [("property", "type"), ("val", "nothing")] "o"
      ⟨[⟨"A", "School", "", "NONE", "NONE", "MEDIUM", false, "c", 0⟩], 1, [0]⟩).2.2.2.2.2.1
      "type" "nothing" (by decide) (by decide) (by decide) (by decide) (by decide) (by decide)


/-- Does the due string parse as a real calendar date? -/
def isRealDate (s : String) : Bool :=
  match parseDateStr s with
  | .ok (some _) => true
  | _ => false

theorem dueKey_of_none {t : Task} (h : t.due = "NONE") : dueKey t = (1, 0) := by
  unfold dueKey
  rw [h]
  rfl

theorem dueKey_of_real {t : Task} (h : isRealDate t.due = true) :
    ∃ n, dueKey t = (0, n) := by
  unfold isRealDate at h
  unfold dueKey
  cases hp : parseDateStr t.due with
  | error e =>
    rw [hp] at h
    exact Bool.noConfusion h
  | ok o =>
    cases o with
    | none =>
      rw [hp] at h
      exact Bool.noConfusion h
    | some ymd =>
      obtain ⟨y, m, d⟩ := ymd
      exact ⟨toordinal y m d, rfl⟩

theorem taskLt_due_real_none {a b : Task} (ha : isRealDate a.due = true)
    (hb : b.due = "NONE") : taskLt "due" a b = true := by
  obtain ⟨n, hn⟩ := dueKey_of_real ha
  have h : taskLt "due" a b = ltKey (toLex (dueKey a)) (toLex (dueKey b)) := rfl
  rw [h, hn, dueKey_of_none hb]
  unfold ltKey
  exact decide_eq_true ((Prod.Lex.lt_iff _ _).mpr (Or.inl (by omega)))

set_option maxHeartbeats 1000000 in
/-- C1 counterexample: sorting by due with direction desc places a task
whose due is the sentinel NONE before a task with a real date - the
whole order, sentinel placement included, is reversed - contradicting
the claim that NONE sorts after real dates for both directions. -/
theorem C1_counterexample :
    sortTasksForPrint
        [⟨"a", "NONE", "", "01-01-2020", "NONE", "MEDIUM", false, "c", 0⟩,
         ⟨"b", "NONE", "", "NONE", "NONE", "MEDIUM", false, "c", 1⟩] "due" "desc"
      = [⟨"b", "NONE", "", "NONE", "NONE", "MEDIUM", false, "c", 1⟩,
         ⟨"a", "NONE", "", "01-01-2020", "NONE", "MEDIUM", false, "c", 0⟩] ∧
      (⟨"b", "NONE", "", "NONE", "NONE", "MEDIUM", false, "c", 1⟩ : Task).due = "NONE" ∧
      isRealDate (⟨"a", "NONE", "", "01-01-2020", "NONE", "MEDIUM", false, "c", 0⟩ : Task).due
        = true := by
  refine ⟨by decide, rfl, by decide⟩

/-- C1 (amended): sorting by due ascending places every task whose due
is the sentinel NONE after every task with a real date; descending
reverses the entire computed order, so there every NONE task comes
before every real-date task. -/
theorem C1_due_none_placement (ts : List Task) :
    (sortTasksForPrint ts "due" "asc").Pairwise
        (fun a b => ¬(a.due = "NONE" ∧ isRealDate b.due = true)) ∧
      (sortTasksForPrint ts "due" "desc").Pairwise
        (fun a b => ¬(isRealDate a.due = true ∧ b.due = "NONE")) := by
  constructor
  · refine (sortTasksForPrint_sorted_asc ts "due").imp ?_
    intro a b hr hc
    rcases hc with ⟨ha, hb⟩
    unfold ascRel at hr
    rw [taskLt_due_real_none hb ha] at hr
    exact Bool.noConfusion hr
  · refine (sortTasksForPrint_sorted_desc ts "due").imp ?_
    intro a b hr hc
    rcases hc with ⟨ha, hb⟩
    unfold descRel at hr
    rw [taskLt_due_real_none ha hb] at hr
    exact Bool.noConfusion hr

set_option maxHeartbeats 1000000 in
/-- C6 counterexample: with two tasks tying on the sort key (equal
names), descending order keeps the tie in original order - Python
sorted with reverse=True is stable and does not reverse ties - so the
descending row order is not the reverse of the ascending row order. -/
theorem C6_counterexample :
    sortTasksForPrint
        [⟨"same", "NONE", "", "NONE", "NONE", "MEDIUM", false, "c", 0⟩,
         ⟨"same", "NONE", "", "NONE", "NONE", "MEDIUM", false, "c", 1⟩] "name" "desc"
      = [⟨"same", "NONE", "", "NONE", "NONE", "MEDIUM", false, "c", 0⟩,
         ⟨"same", "NONE", "", "NONE", "NONE", "MEDIUM", false, "c", 1⟩] ∧
      (sortTasksForPrint
          [⟨"same", "NONE", "", "NONE", "NONE", "MEDIUM", false, "c", 0⟩,
           ⟨"same", "NONE", "", "NONE", "NONE", "MEDIUM", false, "c", 1⟩] "name" "asc").reverse
        = [⟨"same", "NONE", "", "NONE", "NONE", "MEDIUM", false, "c", 1⟩,
           ⟨"same", "NONE", "", "NONE", "NONE", "MEDIUM", false, "c", 0⟩] ∧
      sortTasksForPrint
          [⟨"same", "NONE", "", "NONE", "NONE", "MEDIUM", false, "c", 0⟩,
           ⟨"same", "NONE", "", "NONE", "NONE", "MEDIUM", false, "c", 1⟩] "name" "desc"
        ≠ (sortTasksForPrint
            [⟨"same", "NONE", "", "NONE", "NONE", "MEDIUM", false, "c", 0⟩,
             ⟨"same", "NONE", "", "NONE", "NONE", "MEDIUM", false, "c", 1⟩] "name" "asc").reverse := by
  refine ⟨by decide, by decide, by decide⟩

/-- C6 (amended): for every sort field, sorting is stable for ties in
both directions (the subsequence of tasks tying on the sort key is
exactly their input subsequence), and the descending order is the exact
reverse of the ascending order whenever no two tasks of the list tie on
the sort key; with ties present the orders need not be reverses, since
ties keep input order in both directions. -/
theorem C6_stable_and_reverse (f dir : String) (ts : List Task) (t0 : Task)
    (hf : f ∈ PROPERTIES) :
    ((sortTasksForPrint ts f dir).filter (fun t => taskKeyEq f t t0)
        = ts.filter (fun t => taskKeyEq f t t0)) ∧
      (ts.Pairwise (fun a b => taskKeyEq f a b = false) →
        sortTasksForPrint ts f "desc" = (sortTasksForPrint ts f "asc").reverse) := by
  refine ⟨sortTasksForPrint_stable ts f dir t0, ?_⟩
  intro hdist
  exact sortTasksForPrint_desc_eq_reverse ts f hdist

set_option maxHeartbeats 1000000 in
theorem C6_stable_and_reverse_witness :
    ((sortTasksForPrint
          [⟨"b", "NONE", "", "NONE", "NONE", "MEDIUM", false, "c", 0⟩,
           ⟨"a", "NONE", "", "NONE", "NONE", "MEDIUM", false, "c", 1⟩] "name" "asc").filter
        (fun t => taskKeyEq "name" t ⟨"b", "NONE", "", "NONE", "NONE", "MEDIUM", false, "c", 0⟩)
      = [⟨"b", "NONE", "", "NONE", "NONE", "MEDIUM", false, "c", 0⟩,
         ⟨"a", "NONE", "", "NONE", "NONE", "MEDIUM", false, "c", 1⟩].filter
          (fun t => taskKeyEq "name" t ⟨"b", "NONE", "", "NONE", "NONE", "MEDIUM", false, "c", 0⟩)) ∧
      sortTasksForPrint
          [⟨"b", "NONE", "", "NONE", "NONE", "MEDIUM", false, "c", 0⟩,
           ⟨"a", "NONE", "", "NONE", "NONE", "MEDIUM", false, "c", 1⟩] "name" "desc"
        = (sortTasksForPrint
            [⟨"b", "NONE", "", "NONE", "NONE", "MEDIUM", false, "c", 0⟩,
             ⟨"a", "NONE", "", "NONE", "NONE", "MEDIUM", false, "c", 1⟩] "name" "asc").reverse := by
  have h := C6_stable_and_reverse "name" "asc"
    [⟨"b", "NONE", "", "NONE", "NONE", "MEDIUM", false, "c", 0⟩,
     ⟨"a", "NONE", "", "NONE", "NONE", "MEDIUM", false, "c", 1⟩]
    ⟨"b", "NONE", "", "NONE", "NONE", "MEDIUM", false, "c", 0⟩ (by decide)
  exact ⟨h.1, h.2 (by decide)⟩


/-! ## State-shape lemmas for the mutating commands -/

theorem setStrProp_id (prop v : String) (t : Task) : (setStrProp prop v t).id = t.id := by
  unfold setStrProp
  split <;> rfl

theorem setStrProp_name_of_ne {prop : String} (hne : prop ≠ "name") (v : String) (t : Task) :
    (setStrProp prop v t).name = t.name := by
  unfold setStrProp
  split
  · exact absurd rfl hne
  · rfl
  · rfl
  · rfl

theorem updateFirst_map_id (p : Task → Bool) (f : Task → Task)
    (hf : ∀ t, (f t).id = t.id) :
    ∀ l : List Task, (updateFirst p f l).map Task.id = l.map Task.id := by
  intro l
  induction l with
  | nil => rfl
  | cons t ts ih =>
    unfold updateFirst
    by_cases hp : p t = true
    · rw [if_pos hp]
      simp [hf t]
    · rw [if_neg hp]
      simp [ih]

theorem mem_updateFirst {p : Task → Bool} {f : Task → Task} :
    ∀ {l : List Task} {t : Task}, t ∈ updateFirst p f l → t ∈ l ∨ ∃ u ∈ l, t = f u := by
  intro l
  induction l with
  | nil => intro t h; exact absurd h (List.not_mem_nil t)
  | cons u ts ih =>
    intro t h
    unfold updateFirst at h
    by_cases hp : p u = true
    · rw [if_pos hp] at h
      rcases List.mem_cons.mp h with h1 | h1
      · exact Or.inr ⟨u, List.mem_cons_self u ts, h1⟩
      · exact Or.inl (List.mem_cons_of_mem u h1)
    · rw [if_neg hp] at h
      rcases List.mem_cons.mp h with h1 | h1
      · exact Or.inl (h1 ▸ List.mem_cons_self u ts)
      · rcases ih h1 with h2 | ⟨w, hw, he⟩
        · exact Or.inl (List.mem_cons_of_mem u h2)
        · exact Or.inr ⟨w, List.mem_cons_of_mem u hw, he⟩

theorem cmdAdd_ok_state {args : Args} {orig now : String} {st : State}
    {out : List String} {st2 : State}
    (h : cmdAdd args orig now st = .ok (out, st2)) :
    ∃ name typ desc dueStr rep prio, pyIsdigit name = false ∧
      st2 = { st with
        tasks := st.tasks ++ [⟨name, typ, desc, dueStr, rep, prio, false, now, st.nextId⟩],
        nextId := st.nextId + 1,
        created := st.created ++ [st.nextId] } := by
  unfold cmdAdd at h
  dsimp only at h
  split at h
  · exact absurd h (by simp)
  · split at h
    · exact absurd h (by simp)
    case _ nm heq =>
      split at h
      · exact absurd h (by simp)
      case _ hdig =>
        split at h
        · exact absurd h (by simp)
        · split at h
          · exact absurd h (by simp)
          · split at h
            · exact absurd h (by simp)
            · simp only [Except.ok.injEq, Prod.mk.injEq] at h
              refine ⟨nm, _, _, _, _, _, ?_, h.2.symm⟩
              cases hx : pyIsdigit nm
              · rfl
              · exact absurd hx hdig

theorem cmdMod_ok_state {args : Args} {orig : String} {st : State}
    {out : List String} {st2 : State}
    (h : cmdMod args orig st = .ok (out, st2)) :
    ∃ (p : Task → Bool) (f : Task → Task),
      (∀ t, (f t).id = t.id) ∧
      (∀ t, pyIsdigit t.name = false → pyIsdigit (f t).name = false) ∧
      st2 = { st with tasks := updateFirst p f st.tasks } := by
  unfold cmdMod at h
  dsimp only at h
  split at h
  · exact absurd h (by simp)
  · split at h
    case _ idS prop newVal hq1 hq2 hq3 =>
      split at h
      · exact absurd h (by simp)
      case _ idv hpi =>
        split at h
        · exact absurd h (by simp)
        · split at h
          · exact absurd h (by simp)
          · split at h
            · split at h
              · exact absurd h (by simp)
              · simp only [Except.ok.injEq, Prod.mk.injEq] at h
                refine ⟨_, _, ?_, ?_, h.2.symm⟩
                · exact fun t => rfl
                · exact fun t ht => ht
            · split at h
              · split at h
                · exact absurd h (by simp)
                · simp only [Except.ok.injEq, Prod.mk.injEq] at h
                  refine ⟨_, _, ?_, ?_, h.2.symm⟩
                  · exact fun t => rfl
                  · exact fun t ht => ht
              · split at h
                · split at h
                  · exact absurd h (by simp)
                  · simp only [Except.ok.injEq, Prod.mk.injEq] at h
                    refine ⟨_, _, ?_, ?_, h.2.symm⟩
                    · exact fun t => rfl
                    · exact fun t ht => ht
                · split at h
                  · split at h
                    · exact absurd h (by simp)
                    · simp only [Except.ok.injEq, Prod.mk.injEq] at h
                      refine ⟨_, _, ?_, ?_, h.2.symm⟩
                      · exact fun t => rfl
                      · exact fun t ht => ht
                  · split at h
                    · exact absurd h (by simp)
                    · split at h
                      · exact absurd h (by simp)
                      · split at h
                        · exact absurd h (by simp)
                        case _ hng =>
                          simp only [Except.ok.injEq, Prod.mk.injEq] at h
                          refine ⟨_, setStrProp prop newVal,
                            fun t => setStrProp_id prop newVal t, ?_, h.2.symm⟩
                          intro t ht
                          by_cases hp : prop = "name"
                          · subst hp
                            have hdig : pyIsdigit newVal = false := by
                              cases hx : pyIsdigit newVal
                              · rfl
                              · exact absurd (by simp [hx]) hng
                            exact hdig
                          · rw [setStrProp_name_of_ne hp]
                            exact ht
    · exact absurd h (by simp)

theorem cmdDone_ok_state {args : Args} {orig : String} {st : State}
    {out : List String} {st2 : State}
    (h : cmdDone args orig st = .ok (out, st2)) :
    ∃ (p : Task → Bool) (f : Task → Task),
      (∀ t, (f t).id = t.id) ∧
      (∀ t, pyIsdigit t.name = false → pyIsdigit (f t).name = false) ∧
      st2 = { st with tasks := updateFirst p f st.tasks } := by
  unfold cmdDone at h
  dsimp only at h
  split at h
  · exact absurd h (by simp)
  · split at h
    · exact absurd h (by simp)
    · split at h
      · exact absurd h (by simp)
      · split at h
        · exact absurd h (by simp)
        · simp only [Except.ok.injEq, Prod.mk.injEq] at h
          refine ⟨_, _, ?_, ?_, h.2.symm⟩
          · exact fun t => rfl
          · exact fun t ht => ht

theorem cmdDelete_ok_state {args : Args} {orig : String} {st : State}
    {out : List String} {st2 : State}
    (h : cmdDelete args orig st = .ok (out, st2)) :
    List.Sublist st2.tasks st.tasks ∧ st2.nextId = st.nextId ∧
      st2.created = st.created := by
  unfold cmdDelete at h
  dsimp only at h
  split at h
  · exact absurd h (by simp)
  · split at h
    · split at h
      · exact absurd h (by simp)
      · split at h
        · exact absurd h (by simp)
        · split at h
          · exact absurd h (by simp)
          · simp only [Except.ok.injEq, Prod.mk.injEq] at h
            rw [← h.2]
            exact ⟨List.eraseIdx_sublist st.tasks _, rfl, rfl⟩
    · split at h
      · split at h
        · exact absurd h (by simp)
        · split at h
          · exact absurd h (by simp)
          · simp only [Except.ok.injEq, Prod.mk.injEq] at h
            rw [← h.2]
            exact ⟨List.filter_sublist st.tasks, rfl, rfl⟩
      · exact absurd h (by simp)

/-- The state after processing one line is the incoming state, an add
(appending one task with the current counter as id, the counter bumped,
the id recorded), an in-place field update that preserves every id and
never introduces an all-digits name, or a removal of some tasks. -/
theorem processLine_state_shape (now line : String) (st : State) :
    (processLine now line st).2 = st ∨
    (∃ name typ desc dueStr rep prio, pyIsdigit name = false ∧
      (processLine now line st).2 = { st with
        tasks := st.tasks ++ [⟨name, typ, desc, dueStr, rep, prio, false, now, st.nextId⟩],
        nextId := st.nextId + 1,
        created := st.created ++ [st.nextId] }) ∨
    (∃ (p : Task → Bool) (f : Task → Task),
      (∀ t, (f t).id = t.id) ∧
      (∀ t, pyIsdigit t.name = false → pyIsdigit (f t).name = false) ∧
      (processLine now line st).2 = { st with tasks := updateFirst p f st.tasks }) ∨
    (List.Sublist (processLine now line st).2.tasks st.tasks ∧
      (processLine now line st).2.nextId = st.nextId ∧
      (processLine now line st).2.created = st.created) := by
  unfold processLine
  dsimp only
  split_ifs
  · exact Or.inl rfl
  · exact Or.inl rfl
  · unfold afterLengthCheck
    split_ifs
    · exact Or.inl rfl
    · split
      · exact Or.inl rfl
      · split
        · exact Or.inl rfl
        · unfold dispatchCommand
          split_ifs
          · exact Or.inl rfl
          · split
            case _ r heq =>
              obtain ⟨out, st2⟩ := r
              exact Or.inl (cmdHelp_ok_state heq)
            case _ => exact Or.inl rfl
          · split
            case _ r heq =>
              obtain ⟨out, st2⟩ := r
              exact Or.inl (cmdPrint_ok_state heq)
            case _ => exact Or.inl rfl
          · split
            case _ r heq =>
              obtain ⟨out, st2⟩ := r
              exact Or.inr (Or.inl (cmdAdd_ok_state heq))
            case _ => exact Or.inl rfl
          · split
            case _ r heq =>
              obtain ⟨out, st2⟩ := r
              exact Or.inl (cmdList_ok_state heq)
            case _ => exact Or.inl rfl
          · split
            case _ r heq =>
              obtain ⟨out, st2⟩ := r
              exact Or.inr (Or.inr (Or.inl (cmdMod_ok_state heq)))
            case _ => exact Or.inl rfl
          · split
            case _ r heq =>
              obtain ⟨out, st2⟩ := r
              exact Or.inr (Or.inr (Or.inl (cmdDone_ok_state heq)))
            case _ => exact Or.inl rfl
          · split
            case _ r heq =>
              obtain ⟨out, st2⟩ := r
              exact Or.inr (Or.inr (Or.inr (cmdDelete_ok_state heq)))
            case _ => exact Or.inl rfl
          · exact Or.inl rfl

/-! ## The store invariants -/

/-- No stored task has an all-digits (non-empty numeric) name. -/
def NameOk (st : State) : Prop := ∀ t ∈ st.tasks, pyIsdigit t.name = false

/-- The id discipline: the history of assigned ids is exactly
0, 1, ..., nextId - 1 in order, the stored ids are strictly increasing
in store order, and every stored id is below the counter. -/
def IdInv (st : State) : Prop :=
  st.created = List.range st.nextId ∧
  (st.tasks.map Task.id).Pairwise (fun a b => a < b) ∧
  ∀ t ∈ st.tasks, t.id < st.nextId

theorem nameOk_step (now line : String) (st : State) (h : NameOk st) :
    NameOk (processLine now line st).2 := by
  rcases processLine_state_shape now line st with hs | hs | hs | hs
  · rw [hs]; exact h
  · obtain ⟨name, typ, desc, dueStr, rep, prio, hdig, hs⟩ := hs
    rw [hs]
    intro t ht
    rcases List.mem_append.mp ht with h1 | h1
    · exact h t h1
    · simp only [List.mem_singleton] at h1
      rw [h1]
      exact hdig
  · obtain ⟨p, f, hfid, hfname, hs⟩ := hs
    rw [hs]
    intro t ht
    rcases mem_updateFirst ht with h1 | ⟨u, hu, he⟩
    · exact h t h1
    · rw [he]
      exact hfname u (h u hu)
  · intro t ht
    exact h t (hs.1.subset ht)

theorem idInv_step (now line : String) (st : State) (h : IdInv st) :
    IdInv (processLine now line st).2 := by
  obtain ⟨hc, hp, hb⟩ := h
  rcases processLine_state_shape now line st with hs | hs | hs | hs
  · rw [hs]; exact ⟨hc, hp, hb⟩
  · obtain ⟨name, typ, desc, dueStr, rep, prio, hdig, hs⟩ := hs
    rw [hs]
    refine ⟨?_, ?_, ?_⟩
    · simp only
      rw [hc, ← List.range_succ]
    · simp only [List.map_append, List.map_cons, List.map_nil]
      rw [List.pairwise_append]
      refine ⟨hp, by simp, ?_⟩
      intro a ha b hb2
      simp only [List.mem_singleton] at hb2
      subst hb2
      rcases List.mem_map.mp ha with ⟨u, hu, he⟩
      rw [← he]
      exact hb u hu
    · intro t ht
      rcases List.mem_append.mp ht with h1 | h1
      · exact Nat.lt_succ_of_lt (hb t h1)
      · simp only [List.mem_singleton] at h1
        rw [h1]
        exact Nat.lt_succ_self _
  · obtain ⟨p, f, hfid, hfname, hs⟩ := hs
    rw [hs]
    refine ⟨hc, ?_, ?_⟩
    · simp only
      rw [updateFirst_map_id p f hfid]
      exact hp
    · intro t ht
      rcases mem_updateFirst ht with h1 | ⟨u, hu, he⟩
      · exact hb t h1
      · rw [he, hfid u]
        exact hb u hu
  · obtain ⟨hsub, hnid, hcr⟩ := hs
    refine ⟨hcr.trans (hnid ▸ hc), ?_, ?_⟩
    · exact hp.sublist (hsub.map Task.id)
    · intro t ht
      rw [hnid]
      exact hb t (hsub.subset ht)

theorem runLines_pres {P : State → Prop}
    (hstep : ∀ now line st, P st → P (processLine now line st).2) :
    ∀ (lines : List (String × String)) (st : State), P st → P (runLines lines st) := by
  intro lines
  induction lines with
  | nil => intro st h; exact h
  | cons c rest ih =>
    intro st h
    exact ih _ (hstep c.1 c.2 st h)


/-- C2 counterexample: the name of a task may be empty.  The add handler
rejects a name only when name.isdigit() is true, which is false for the
empty string, so add name="" (an empty quoted value) creates a task
whose name is the empty string - contradicting the claim that every
reachable task name is non-empty. -/
theorem C2_counterexample :
    (runLines [("n", "add name=\x22\x22")] initState).tasks.map Task.name = [""] := by
  decide

/-- C2 (amended): in every store state reachable from the initial empty
store, no task name is a purely numeric string (non-empty and all
digits, the Python isdigit test); names may be empty.  An add whose name
value is purely numeric, and a mod of property name whose new value is
purely numeric, fail with InvalidArgumentType. -/
theorem C2_name_never_numeric :
    (∀ (lines : List (String × String)), ∀ t ∈ (runLines lines initState).tasks,
        pyIsdigit t.name = false) ∧
      (∀ (args : Args) (orig now name : String) (st : State),
        args.all (fun p => ["name", "type", "desc", "due", "rep", "prio"].contains p.1) = true →
        argsGet args "name" = some name → pyIsdigit name = true →
        cmdAdd args orig now st = .error .invalidArgumentType) ∧
      (∀ (args : Args) (orig s v : String) (idv : Int) (st : State),
        args.all (fun p => ["id", "property", "new_val"].contains p.1) = true →
        argsGet args "id" = some s → argsGet args "property" = some "name" →
        argsGet args "new_val" = some v → pyInt s = some idv →
        (∃ t ∈ st.tasks, ((t.id : Int) == idv) = true) → pyIsdigit v = true →
        cmdMod args orig st = .error .invalidArgumentType) := by
  refine ⟨?_, ?_, ?_⟩
  · intro lines
    refine runLines_pres nameOk_step lines initState ?_
    intro t ht
    exact absurd ht (List.not_mem_nil t)
  · intro args orig now name st hall hname hdig
    unfold cmdAdd
    rw [if_neg (by rw [hall]; decide)]
    rw [hname]
    dsimp only
    rw [if_pos hdig]
  · intro args orig s v idv st hall hid hprop hnew hpint hex hdig
    unfold cmdMod
    rw [if_neg (by rw [hall]; decide)]
    rw [hid, hprop, hnew]
    dsimp only
    rw [hpint]
    dsimp only
    rw [if_neg (by decide)]
    obtain ⟨t, hmem, hidt⟩ := hex
    have hfind : (st.tasks.find? (fun u => (u.id : Int) == idv)).isSome = true := by
      rw [List.find?_isSome]
      exact ⟨t, hmem, hidt⟩
    cases hf : st.tasks.find? (fun u => (u.id : Int) == idv) with
    | none =>
      rw [hf] at hfind
      exact Bool.noConfusion hfind
    | some t0 =>
      dsimp only
      rw [if_neg (by decide), if_neg (by decide), if_neg (by decide), if_neg (by decide),
        if_neg (by decide), if_neg (by decide)]
      rw [if_pos (by rw [hdig]; decide)]

theorem C2_name_never_numeric_witness :
    (∀ t ∈ (runLines [("n", "add name=A")] initState).tasks, pyIsdigit t.name = false) ∧
      cmdAdd [("name", "5")] "o" "n" initState = .error .invalidArgumentType ∧
      cmdMod [("id", "0"), ("property", "name"), ("new_val", "77")] "o"
          ⟨[⟨"A", "NONE", "", "NONE", "NONE", "MEDIUM", false, "c", 0⟩], 1, [0]⟩
        = .error .invalidArgumentType :=
  ⟨C2_name_never_numeric.1 [("n", "add name=A")],
   C2_name_never_numeric.2.1 [("name", "5")] "o" "n" "5" initState
     (by decide) (by decide) (by decide),
   C2_name_never_numeric.2.2 [("id", "0"), ("property", "name"), ("new_val", "77")]
     "o" "0" "77" 0 ⟨[⟨"A", "NONE", "", "NONE", "NONE", "MEDIUM", false, "c", 0⟩], 1, [0]⟩
     (by decide) (by decide) (by decide) (by decide) (by decide)
     ⟨⟨"A", "NONE", "", "NONE", "NONE", "MEDIUM", false, "c", 0⟩, by decide, by decide⟩
     (by decide)⟩

/-- C4: starting from the initial empty store, the n-th successful add
(counting from 0) creates a task with id n - the recorded history of
assigned ids is exactly 0, 1, 2, ... - ids are strictly increasing in
store order, an id below the counter is never assigned again after any
deletion, and ids are never changed once assigned: at every reachable
state, processing one further line either leaves the state unchanged,
appends exactly one task carrying the fresh counter id to the untouched
store, updates a stored task through a function that preserves its id,
or removes whole tasks; so a stored task can never have its id
rewritten. -/
theorem C4_id_discipline (lines : List (String × String)) :
    (runLines lines initState).created
        = List.range (runLines lines initState).created.length ∧
      ((runLines lines initState).tasks.map Task.id).Pairwise (fun a b => a < b) ∧
      (∀ t ∈ (runLines lines initState).tasks,
        t.id ∈ (runLines lines initState).created) ∧
      (∀ now line,
        (processLine now line (runLines lines initState)).2 = runLines lines initState ∨
        (∃ t : Task, t.id = (runLines lines initState).nextId ∧
          (processLine now line (runLines lines initState)).2.tasks
            = (runLines lines initState).tasks ++ [t]) ∨
        (∃ (p : Task → Bool) (f : Task → Task), (∀ u, (f u).id = u.id) ∧
          (processLine now line (runLines lines initState)).2.tasks
            = updateFirst p f (runLines lines initState).tasks) ∨
        List.Sublist (processLine now line (runLines lines initState)).2.tasks
          (runLines lines initState).tasks) := by
  have hinv : IdInv (runLines lines initState) := by
    refine runLines_pres idInv_step lines initState ⟨rfl, List.Pairwise.nil, ?_⟩
    intro t ht
    exact absurd ht (List.not_mem_nil t)
  obtain ⟨hc, hp, hb⟩ := hinv
  refine ⟨?_, hp, ?_, ?_⟩
  · rw [hc, List.length_range]
  · intro t ht
    rw [hc]
    exact List.mem_range.mpr (hb t ht)
  · intro now line
    rcases processLine_state_shape now line (runLines lines initState) with hs | hs | hs | hs
    · exact Or.inl hs
    · obtain ⟨name, typ, desc, dueStr, rep, prio, hdig, hs⟩ := hs
      refine Or.inr (Or.inl ⟨⟨name, typ, desc, dueStr, rep, prio, false, now,
        (runLines lines initState).nextId⟩, rfl, ?_⟩)
      rw [hs]
    · obtain ⟨p, f, hfid, hfname, hs⟩ := hs
      refine Or.inr (Or.inr (Or.inl ⟨p, f, hfid, ?_⟩))
      rw [hs]
    · exact Or.inr (Or.inr (Or.inr hs.1))

end Taskmgr
